import Mathlib

/-!
# Output buffer and segment tracking of the ACME cross-assembler (output.c)

A shallow embedding of `src/src/output.c`.

Modelling conventions
* Values of type `intval_t` (`long`) are mathematical integers (`Int`); the
  statements below are about values far inside its range.  The type `int` has
  32 bits: where an `intval_t` position is passed for the `int` parameter of
  `border_crossed`, it is converted by `to_int`, which wraps.  `x & 0xff` and
  `x & 0xffff` on a two's-complement value are the Euclidean remainders
  `x % 256` and `x % 65536`; `x >> n` is the arithmetic shift `x >>> n`.
* The value of `out->segment.flags` is a natural number whose bits are tested
  with `&&&`.
* The global `struct output` together with the globals the functions touch
  (`Output_byte`, `pass_count`, `CPU_state.add_to_pc`, `pass_undefined_count`)
  and the list of diagnostics thrown so far form one `State` record.
* The ring list of segments is the list of its elements in ring order, from
  `list_head.next` to `list_head.prev`; the two fields of the head element that
  the code overwrites to use it as a sentinel are kept as `list_head_start`
  and `list_head_length`.  Allocation in `link_segment` always succeeds.
* A function that can call `Throw_serious_error` or store outside the buffer
  returns a `Result`.  The `printf` reports under `Process_verbosity` are no
  diagnostics and are left out.
* `Output_save_file` is the list of bytes it writes to the file, with the
  static `output_format` as a parameter; `PO_initmem` takes the value of its
  argument, which `ALU_defined_int()` evaluates, as a parameter.
* Runs are lists of operations (`Op`, within a pass) or of steps (`Step`, with
  the starts of later passes), executed as long as each call returns.
-/

namespace Acme

/-! ## Constants -/

/-- Number of byte slots of the output buffer (`#define OUTBUFFERSIZE 65536`). -/
def OUTBUFFERSIZE : Int := 65536

/-- Invalid value signalling that no segment is active (`#define NO_SEGMENT_START (-1)`). -/
def NO_SEGMENT_START : Int := -1

/-- Segment modifier bit for overlay segments (`1u << 0`). -/
def SEGMENT_FLAG_OVERLAY : Nat := 1

/-- Segment modifier bit for invisible segments (`1u << 1`). -/
def SEGMENT_FLAG_INVISIBLE : Nat := 2

/-! ## Data model -/

/-- One element of the ring list of segment data (`struct segment` without its links). -/
structure segment where
  start : Int
  length : Int
deriving DecidableEq, Repr

/-- The two functions the pointer `Output_byte` can hold. -/
inductive OutputByteFn where
  | real_output
  | no_output
deriving DecidableEq, Repr

/-- Diagnostics thrown by the functions of output.c. -/
inductive Diag where
  /-- Thrown by `Throw_error(exception_pc_undefined)`. -/
  | exception_pc_undefined
  /-- Thrown by `Throw_error(exception_number_out_of_range)`. -/
  | exception_number_out_of_range
  /-- Warning "Segment reached another one, overwriting it." -/
  | segment_reached_another_one
  /-- Warning "Segment starts inside another one, overwriting it." -/
  | segment_starts_inside_another_one
  /-- Warning "Memory already initialised." -/
  | memory_already_initialised
  /-- Serious error "Produced too much code." -/
  | produced_too_much_code
deriving DecidableEq, Repr

/-- The `struct output` behind `out`, the globals used with it, and the diagnostics so far. -/
structure State where
  /-- Contents of `out->buffer`; only the indices `0 .. OUTBUFFERSIZE - 1` are slots of it. -/
  buffer : Int → Int
  /-- Index of next write (`out->write_idx`). -/
  write_idx : Int
  /-- Smallest address used (`out->lowest_written`). -/
  lowest_written : Int
  /-- Largest address used (`out->highest_written`). -/
  highest_written : Int
  /-- Whether the fill value was set (`out->initvalue_set`). -/
  initvalue_set : Bool
  /-- Start of current segment or `NO_SEGMENT_START` (`out->segment.start`). -/
  segment_start : Int
  /-- Highest address the segment may use (`out->segment.max`). -/
  segment_max : Int
  /-- Overlay and invisible flags (`out->segment.flags`). -/
  segment_flags : Nat
  /-- Field `start` of the head element of the ring (`out->segment.list_head.start`). -/
  list_head_start : Int
  /-- Field `length` of the head element of the ring (`out->segment.list_head.length`). -/
  list_head_length : Int
  /-- Elements of the ring list in ring order, the head element left out. -/
  ring : List segment
  /-- The function pointer `Output_byte`. -/
  Output_byte_ptr : OutputByteFn
  /-- The global `pass_count`. -/
  pass_count : Int
  /-- The global `CPU_state.add_to_pc`. -/
  add_to_pc : Int
  /-- The global `pass_undefined_count`. -/
  pass_undefined_count : Int
  /-- Every diagnostic thrown so far, oldest first. -/
  diagnostics : List Diag

/-- How a call ends: it returns, the run is aborted by `Throw_serious_error`, or
the call stores outside the buffer.  The state is the one reached at that point. -/
inductive Result where
  | ok (s : State)
  | serious (s : State)
  | out_of_bounds (s : State)

/-- Sequencing of calls: what follows runs only after a call that returned. -/
def Result.andThen (r : Result) (f : State → Result) : Result :=
  match r with
  | Result.ok s => f s
  | Result.serious s => Result.serious s
  | Result.out_of_bounds s => Result.out_of_bounds s

/-! ## Diagnostics (global.c is not part of the sources) -/

/-- Modelled from the spec: `Throw_error` of global.c, a recoverable error is
reported and the assembly continues. -/
def Throw_error (d : Diag) (s : State) : State :=
  { s with diagnostics := s.diagnostics ++ [d] }

/-- Modelled from the spec: `Throw_warning` of global.c, a warning is reported
and the assembly continues unaffected. -/
def Throw_warning (d : Diag) (s : State) : State :=
  { s with diagnostics := s.diagnostics ++ [d] }

/-- Modelled from the spec: `Throw_serious_error` of global.c, the fatal error
is reported and the run is aborted, there is no recovery. -/
def Throw_serious_error (d : Diag) (s : State) : Result :=
  Result.serious { s with diagnostics := s.diagnostics ++ [d] }

/-! ## Segment limit -/

/-- The loop of `find_segment_max`: walk the ring while `test_segment->start <= new_pc`.
The head element is reached when the list is exhausted; its `start` was set to
`new_pc + 1`, so the loop stops there.  The result is the element the loop
stopped at, `none` standing for the head element. -/
def find_segment_max_loop (new_pc : Int) : List segment → Option segment
  | [] => none
  | test_segment :: rest =>
    if test_segment.start ≤ new_pc then find_segment_max_loop new_pc rest
    else some test_segment

/-- Set up new `segment.max` according to the given address (`find_segment_max`):
the head element gets `new_pc + 1` as sentinel, and the limit is `OUTBUFFERSIZE - 1`
when the loop stopped at the head element, else the start found minus one. -/
def find_segment_max (new_pc : Int) (s : State) : State :=
  { s with
    list_head_start := new_pc + 1
    segment_max :=
      match find_segment_max_loop new_pc s.ring with
      | none => OUTBUFFERSIZE - 1
      | some test_segment => test_segment.start - 1 }

/-- The value of an `intval_t` expression converted to `int`: the low 32 bits, read as
a two's-complement number. -/
def to_int (x : Int) : Int :=
  (x + 2147483648) % 4294967296 - 2147483648

/-- Called when the segment limit is passed (`border_crossed`).  The parameter is an
`int`; the callers convert the position they pass with `to_int`. -/
def border_crossed (current_offset : Int) (s : State) : Result :=
  if current_offset ≥ OUTBUFFERSIZE then
    Throw_serious_error Diag.produced_too_much_code s
  else if s.pass_count = 0 then
    Result.ok (find_segment_max (current_offset + 1)
      (Throw_warning Diag.segment_reached_another_one s))
  else
    Result.ok s

/-! ## Byte output -/

/-- The store `out->buffer[idx] = v`; an index that is no slot of the buffer is reported. -/
def store (idx v : Int) (s : State) : Result :=
  if 0 ≤ idx ∧ idx < OUTBUFFERSIZE then
    Result.ok { s with buffer := fun i => if i = idx then v else s.buffer i }
  else
    Result.out_of_bounds s

/-- Send low byte to output buffer, automatically increasing program counter (`real_output`). -/
def real_output (byte : Int) (s : State) : Result :=
  (if s.write_idx > s.segment_max then border_crossed (to_int s.write_idx) s
   else Result.ok s).andThen
  fun s1 =>
    (store s1.write_idx (byte % 256)
      { s1 with
        lowest_written :=
          if s1.write_idx < s1.lowest_written then s1.write_idx else s1.lowest_written
        highest_written :=
          if s1.write_idx > s1.highest_written then s1.write_idx else s1.highest_written }).andThen
    fun s2 =>
      Result.ok { s2 with write_idx := s2.write_idx + 1, add_to_pc := s2.add_to_pc + 1 }

/-- Throw error (pc undefined) and use fake pc from now on (`no_output`). -/
def no_output (byte : Int) (s : State) : Result :=
  real_output byte
    { Throw_error Diag.exception_pc_undefined s with Output_byte_ptr := OutputByteFn.real_output }

/-- A call through the function pointer `Output_byte`. -/
def Output_byte (byte : Int) (s : State) : Result :=
  match s.Output_byte_ptr with
  | OutputByteFn.real_output => real_output byte s
  | OutputByteFn.no_output => no_output byte s

/-- The part of `Output_fake` after the check of the function pointer. -/
def Output_fake_advance (size : Int) (s : State) : Result :=
  (if s.write_idx + size - 1 > s.segment_max then
    border_crossed (to_int (s.write_idx + size - 1)) s
   else Result.ok s).andThen
  fun s1 =>
    Result.ok
      { s1 with
        lowest_written :=
          if s1.write_idx < s1.lowest_written then s1.write_idx else s1.lowest_written
        highest_written :=
          if s1.write_idx + size - 1 > s1.highest_written then s1.write_idx + size - 1
          else s1.highest_written
        write_idx := s1.write_idx + size
        add_to_pc := s1.add_to_pc + size }

/-- Advance the pointers without writing (`Output_fake`). -/
def Output_fake (size : Int) (s : State) : Result :=
  if size < 1 then Result.ok s
  else if s.Output_byte_ptr = OutputByteFn.no_output then
    (Output_byte 0 s).andThen (Output_fake_advance (size - 1))
  else
    Output_fake_advance size s

/-- Output 8-bit value with range check (`Output_8b`). -/
def Output_8b (value : Int) (s : State) : Result :=
  if value ≤ 0xff ∧ value ≥ -0x80 then
    Output_byte value s
  else
    Result.ok (Throw_error Diag.exception_number_out_of_range s)

/-- Output 16-bit value with range check (`Output_16b`). -/
def Output_16b (value : Int) (s : State) : Result :=
  if value ≤ 0xffff ∧ value ≥ -0x8000 then
    (Output_byte value s).andThen (Output_byte (value >>> (8 : Nat)))
  else
    Result.ok (Throw_error Diag.exception_number_out_of_range s)

/-- Output 24-bit value with range check (`Output_24b`). -/
def Output_24b (value : Int) (s : State) : Result :=
  if value ≤ 0xffffff ∧ value ≥ -0x800000 then
    ((Output_byte value s).andThen (Output_byte (value >>> (8 : Nat)))).andThen
      (Output_byte (value >>> (16 : Nat)))
  else
    Result.ok (Throw_error Diag.exception_number_out_of_range s)

/-- Output 32-bit value without range check (`Output_32b`). -/
def Output_32b (value : Int) (s : State) : Result :=
  (((Output_byte value s).andThen (Output_byte (value >>> (8 : Nat)))).andThen
    (Output_byte (value >>> (16 : Nat)))).andThen (Output_byte (value >>> (24 : Nat)))

/-! ## Segment ring -/

/-- The loop of `link_segment` and the linking: walk the ring while the element
is smaller than the new one by `(start, length)`, then link the new element in
front of the element the loop stopped at.  The head element, holding
`(start, length + 1)`, stops the loop when the list is exhausted. -/
def link_segment_loop (new_segment : segment) : List segment → List segment
  | [] => [new_segment]
  | test_segment :: rest =>
    if test_segment.start < new_segment.start
        ∨ (test_segment.start = new_segment.start ∧ test_segment.length < new_segment.length) then
      test_segment :: link_segment_loop new_segment rest
    else
      new_segment :: test_segment :: rest

/-- Link segment data into segment ring (`link_segment`). -/
def link_segment (start length : Int) (s : State) : State :=
  { s with
    list_head_start := start
    list_head_length := length + 1
    ring := link_segment_loop { start := start, length := length } s.ring }

/-- The loop of `check_segment`: whether the walk over the ring throws the warning.
The head element, holding `new_pc + 1`, stops the loop when the list is exhausted. -/
def check_segment_loop (new_pc : Int) : List segment → Bool
  | [] => false
  | test_segment :: rest =>
    if test_segment.start ≤ new_pc then
      if test_segment.start + test_segment.length > new_pc then true
      else check_segment_loop new_pc rest
    else false

/-- Check whether given PC is inside segment (`check_segment`). -/
def check_segment (new_pc : Int) (s : State) : State :=
  if check_segment_loop new_pc s.ring then
    Throw_warning Diag.segment_starts_inside_another_one
      { s with list_head_start := new_pc + 1, list_head_length := 1 }
  else
    { s with list_head_start := new_pc + 1, list_head_length := 1 }

/-! ## Pass and segment lifecycle -/

/-- Disable output at the start of a pass (`Output_passinit`). -/
def Output_passinit (s : State) : State :=
  { s with
    lowest_written := OUTBUFFERSIZE - 1
    highest_written := 0
    Output_byte_ptr := OutputByteFn.no_output
    write_idx := 0
    segment_start := NO_SEGMENT_START
    segment_max := OUTBUFFERSIZE - 1
    segment_flags := 0 }

/-- Finalize the current segment (`Output_end_segment`). -/
def Output_end_segment (s : State) : State :=
  if s.pass_count ≠ 0 then s
  else if s.segment_start = NO_SEGMENT_START then s
  else if s.segment_flags &&& SEGMENT_FLAG_INVISIBLE ≠ 0 then s
  else if s.write_idx - s.segment_start = 0 then s
  else link_segment s.segment_start (s.write_idx - s.segment_start) s

/-- The assignments of `Output_start_segment` after the previous segment was finalized. -/
def Output_start_segment_assign (address_change : Int) (segment_flags : Nat) (s : State) :
    State :=
  { s with
    write_idx := (s.write_idx + address_change) % 65536
    segment_start := (s.write_idx + address_change) % 65536
    segment_flags := segment_flags
    Output_byte_ptr := OutputByteFn.real_output }

/-- Change output pointer and enable output (`Output_start_segment`). -/
def Output_start_segment (address_change : Int) (segment_flags : Nat) (s : State) : State :=
  let s1 := Output_start_segment_assign address_change segment_flags (Output_end_segment s)
  if s1.pass_count = 0 then
    find_segment_max s1.segment_start
      (if segment_flags &&& SEGMENT_FLAG_OVERLAY = 0 then check_segment s1.segment_start s1
       else s1)
  else s1

/-! ## Sequences of calls and specification predicates -/

/-- The calls `Output_byte(b)` for the bytes of a list, one after another. -/
def Output_bytes : List Int → State → Result
  | [], s => Result.ok s
  | b :: bs, s => (Output_byte b s).andThen (Output_bytes bs)

/-- What a write of the `k` low bytes of `v` leaves behind when it starts in state `s`:
the call returns, slot `write_idx + i` holds byte `i` of `v` for `i < k`, every other
slot is as before, `write_idx` and `add_to_pc` went up by `k`, and no diagnostic that
was added is the number-out-of-range error. -/
def WroteLittleEndian (k : Nat) (v : Int) (s : State) (r : Result) : Prop :=
  ∃ t ws, r = Result.ok t
    ∧ (∀ i : Nat, i < k → t.buffer (s.write_idx + i) = (v >>> (8 * i)) % 256)
    ∧ (∀ j : Int, j < s.write_idx ∨ s.write_idx + k ≤ j → t.buffer j = s.buffer j)
    ∧ t.write_idx = s.write_idx + k
    ∧ t.add_to_pc = s.add_to_pc + k
    ∧ t.diagnostics = s.diagnostics ++ ws
    ∧ Diag.exception_number_out_of_range ∉ ws

/-- Order of the ring: by `start`, then by `length`. -/
def segment_le (a b : segment) : Prop :=
  a.start < b.start ∨ (a.start = b.start ∧ a.length ≤ b.length)

/-- The ring is ordered by `(start, length)` ascending. -/
def Ordered (l : List segment) : Prop :=
  l.Pairwise segment_le

/-- Address `a` lies in the interval `[start, start + length)` of segment `g`. -/
def Covers (g : segment) (a : Int) : Prop :=
  g.start ≤ a ∧ a < g.start + g.length

/-! ## Concrete states for the examples -/

/-- A state of the first pass before `Output_passinit`: every slot holds `0xEA`,
the ring is empty, nothing was reported. -/
def example_state : State :=
  { buffer := fun _ => 0xEA
    write_idx := 0
    lowest_written := 0
    highest_written := 0
    initvalue_set := false
    segment_start := 0
    segment_max := 0
    segment_flags := 0
    list_head_start := 0
    list_head_length := 0
    ring := []
    Output_byte_ptr := OutputByteFn.no_output
    pass_count := 0
    add_to_pc := 0
    pass_undefined_count := 0
    diagnostics := [] }

/-- The example state with two committed segments, at `0x2000` and at `0x3000`. -/
def example_two_segments : State :=
  { example_state with
    ring := [{ start := 0x2000, length := 0x10 }, { start := 0x3000, length := 0x20 }] }

/-- The example state with the committed segment `(0x1000, 0x10)`. -/
def example_one_segment : State :=
  { example_state with ring := [{ start := 0x1000, length := 0x10 }] }

/-- The conditions under which `Output_end_segment` links the current segment into
the ring: first pass, a segment is active, it is not invisible, it is not empty. -/
def Eligible (s : State) : Prop :=
  s.pass_count = 0 ∧ s.segment_start ≠ NO_SEGMENT_START
    ∧ s.segment_flags &&& SEGMENT_FLAG_INVISIBLE = 0 ∧ s.write_idx ≠ s.segment_start

/-- The conditions under which `Output_start_segment` throws the warning "Segment
starts inside another one": first pass, no overlay flag, and an element of the ring,
as `Output_end_segment` leaves it, covers the new cursor. -/
def StartsInside (address_change : Int) (segment_flags : Nat) (s : State) : Prop :=
  s.pass_count = 0 ∧ segment_flags &&& SEGMENT_FLAG_OVERLAY = 0
    ∧ ∃ g ∈ (Output_end_segment s).ring, Covers g ((s.write_idx + address_change) % 65536)

/-! ## Saving the output file -/

/-- Possible file formats (`enum out_format_t`). -/
inductive out_format_t where
  | OUTPUT_FORMAT_UNSPECIFIED
  | OUTPUT_FORMAT_APPLE
  | OUTPUT_FORMAT_CBM
  | OUTPUT_FORMAT_PLAIN
deriving DecidableEq, Repr

/-- The byte `putc(c, fd)` of the C library appends to the file: `c` converted to
`unsigned char`. -/
def putc (c : Int) : Int :=
  c % 256

/-- The bytes `fwrite(buffer + start, amount, 1, fd)` of the C library appends to
the file: the `amount` slots of the buffer from `start` on. -/
def fwrite (buffer : Int → Int) (start amount : Int) : List Int :=
  (List.range amount.toNat).map fun (i : Nat) => buffer (start + (i : Int))

/-- Dump used portion of output buffer into output file (`Output_save_file`): the
bytes written to the file, in order.  The static `output_format` is a parameter; the
report under `Process_verbosity` and the file type macros of platform.h are left
out. -/
def Output_save_file (output_format : out_format_t) (s : State) : List Int :=
  let start := if s.highest_written < s.lowest_written then 0 else s.lowest_written
  let amount := if s.highest_written < s.lowest_written then 0
    else s.highest_written - s.lowest_written + 1
  (match output_format with
    | out_format_t.OUTPUT_FORMAT_APPLE =>
      [putc (start % 256), putc (start >>> (8 : Nat)),
        putc (amount % 256), putc (amount >>> (8 : Nat))]
    | out_format_t.OUTPUT_FORMAT_UNSPECIFIED => []
    | out_format_t.OUTPUT_FORMAT_PLAIN => []
    | out_format_t.OUTPUT_FORMAT_CBM =>
      [putc (start % 256), putc (start >>> (8 : Nat))])
  ++ fwrite s.buffer start amount

/-- In the words of the spec: the emitted range `(start, length)` for given
watermarks, empty when `highest_written < lowest_written`. -/
def emitted_range (lowest_written highest_written : Int) : Int × Int :=
  if highest_written < lowest_written then (0, 0)
  else (lowest_written, highest_written - lowest_written + 1)

/-- In the words of the spec: the payload, the buffer slice `[start, start + length)`. -/
def buffer_slice (buffer : Int → Int) (start length : Int) : List Int :=
  (List.range length.toNat).map fun (i : Nat) => buffer (start + (i : Int))

/-- The example state with the three bytes `1, 2, 3` in the slots from `0xC000` on
and the watermarks around them. -/
def example_three_bytes : State :=
  { example_state with
    buffer := fun i => if i = 0xC000 then 1 else if i = 0xC001 then 2
      else if i = 0xC002 then 3 else 0xEA
    lowest_written := 0xC000
    highest_written := 0xC002 }

/-- The example state with the watermarks around the whole buffer. -/
def example_full_buffer : State :=
  { example_state with lowest_written := 0, highest_written := 65535 }

/-- The calls `Output_8b(b)` for the values of a list, one after another. -/
def Output_8b_list : List Int → State → Result
  | [], s => Result.ok s
  | b :: bs, s => (Output_8b b s).andThen (Output_8b_list bs)

/-! ## Runs of operations -/

/-- The state a call ended in, whichever way it ended. -/
def Result.state : Result → State
  | Result.ok s => s
  | Result.serious s => s
  | Result.out_of_bounds s => s

/-- The operations on the output within a pass: `Output_start_segment`,
`Output_end_segment`, a byte through `Output_byte`, and `Output_fake`. -/
inductive Op where
  | start_segment (address_change : Int) (segment_flags : Nat)
  | end_segment
  | byte (v : Int)
  | fake (size : Int)
deriving Repr

/-- The call an operation stands for. -/
def Op.run : Op → State → Result
  | Op.start_segment address_change segment_flags, s =>
    Result.ok (Output_start_segment address_change segment_flags s)
  | Op.end_segment, s => Result.ok (Output_end_segment s)
  | Op.byte v, s => Output_byte v s
  | Op.fake size, s => Output_fake size s

/-- The operations of a list, one after another, as long as each one returns. -/
def run_ops : List Op → State → Result
  | [], s => Result.ok s
  | op :: rest, s => (op.run s).andThen (run_ops rest)

/-- From `s` to `t` the ring, `segment.max` and the pass are unchanged, and every
diagnostic added is the pc-undefined error or the serious error, so no warning. -/
def QuietStep (s t : State) : Prop :=
  t.ring = s.ring ∧ t.segment_max = s.segment_max ∧ t.pass_count = s.pass_count
    ∧ ∃ ws, t.diagnostics = s.diagnostics ++ ws
      ∧ ∀ d ∈ ws, d = Diag.exception_pc_undefined ∨ d = Diag.produced_too_much_code

/-- The example state with the committed segment `(0x1000, 0x10)`, in the second pass. -/
def example_second_pass : State :=
  { example_one_segment with pass_count := 1 }

/-- The example state with two committed segments next to each other, `(0x2000, 1)`
and `(0x2001, 0x10)`. -/
def example_adjacent_segments : State :=
  { example_state with
    ring := [{ start := 0x2000, length := 1 }, { start := 0x2001, length := 0x10 }] }

/-- The state reached from `example_adjacent_segments` in the first pass by a segment
started at `0x1FFF` and one byte `0x11` written: the cursor `0x2000` is above
`segment.max = 0x1FFF`. -/
def example_at_limit : State :=
  { example_adjacent_segments with
    buffer := fun i => if i = 0x1FFF then 0x11 else 0xEA
    write_idx := 0x2000
    lowest_written := 0x1FFF
    highest_written := 0x1FFF
    segment_start := 0x1FFF
    segment_max := 0x1FFF
    list_head_start := 0x2000
    list_head_length := 1
    Output_byte_ptr := OutputByteFn.real_output
    add_to_pc := 1 }

/-! ## Memory initialisation -/

/-- Fill output buffer with given byte value (`fill_completely`): `memset` over the
`OUTBUFFERSIZE` slots of the buffer, each set to the value converted to a byte. -/
def fill_completely (value : Int) (s : State) : State :=
  { s with
    buffer := fun i => if 0 ≤ i ∧ i < OUTBUFFERSIZE then value % 256 else s.buffer i }

/-- What the caller of a pseudo opcode does with the rest of the line (`enum eos_t`,
the two values `PO_initmem` returns). -/
inductive eos_t where
  | SKIP_REMAINDER
  | ENSURE_EOS
deriving DecidableEq, Repr

/-- Define default value for empty memory (`PO_initmem`).  The value `content` is
what `ALU_defined_int()` returns for the argument of the pseudo opcode; it is not
evaluated on the two early returns. -/
def PO_initmem (content : Int) (s : State) : eos_t × State :=
  if s.pass_count ≠ 0 then (eos_t.SKIP_REMAINDER, s)
  else if s.initvalue_set = true then
    (eos_t.SKIP_REMAINDER, Throw_warning Diag.memory_already_initialised s)
  else
    (eos_t.ENSURE_EOS,
      { fill_completely content
          (if content > 0xff ∨ content < -0x80 then
            Throw_error Diag.exception_number_out_of_range { s with initvalue_set := true }
          else { s with initvalue_set := true }) with
        pass_undefined_count :=
          if s.pass_undefined_count = 0 then 1 else s.pass_undefined_count })

/-! ## Emitted positions -/

/-- The positions an operation emits when it is run in state `s` and returns, as a
list of intervals `(first, last)`: a byte is written at the cursor, `Output_fake` of
a size `n ≥ 1` covers the `n` positions from the cursor on, nothing else emits. -/
def Op.emitted : Op → State → List (Int × Int)
  | Op.byte _, s => [(s.write_idx, s.write_idx)]
  | Op.fake size, s => if size < 1 then [] else [(s.write_idx, s.write_idx + size - 1)]
  | Op.start_segment _ _, _ => []
  | Op.end_segment, _ => []

/-- The intervals of positions emitted by a run of operations from state `s`. -/
def emitted_by : List Op → State → List (Int × Int)
  | [], _ => []
  | op :: rest, s =>
    match op.run s with
    | Result.ok t => op.emitted s ++ emitted_by rest t
    | Result.serious _ => []
    | Result.out_of_bounds _ => []

/-- The watermarks of `s` are the extent of the emitted intervals `E`: with nothing
emitted they are the values `Output_passinit` sets and the cursor is an address; else
`lowest_written` is the smallest first position and `highest_written` the largest
last position. -/
def WatermarkInv (E : List (Int × Int)) (s : State) : Prop :=
  0 ≤ s.write_idx
  ∧ (∀ p ∈ E, p.1 ≤ p.2)
  ∧ (E = [] → s.lowest_written = 65535 ∧ s.highest_written = 0 ∧ s.write_idx ≤ 65535)
  ∧ (E ≠ [] →
      (∀ p ∈ E, s.lowest_written ≤ p.1 ∧ p.2 ≤ s.highest_written)
      ∧ (∃ p ∈ E, p.1 = s.lowest_written)
      ∧ (∃ p ∈ E, p.2 = s.highest_written))

/-! ## Whole runs -/

/-- The steps of a whole run: an operation within a pass, or the pass driver starting
another pass, which sets `pass_count` and calls `Output_passinit`. -/
inductive Step where
  | op (o : Op)
  | next_pass (pass_count : Int)
deriving Repr

/-- The call a step stands for. -/
def Step.run : Step → State → Result
  | Step.op o, s => o.run s
  | Step.next_pass pass_count, s =>
    Result.ok (Output_passinit { s with pass_count := pass_count })

/-- The steps of a list, one after another, as long as each one returns. -/
def run_steps : List Step → State → Result
  | [], s => Result.ok s
  | step :: rest, s => (step.run s).andThen (run_steps rest)

/-- The bounds a committed segment keeps: its start is an address, it is not empty,
and it ends inside the buffer. -/
def SegmentInBuffer (g : segment) : Prop :=
  0 ≤ g.start ∧ g.start ≤ 65535 ∧ 1 ≤ g.length ∧ g.start + g.length ≤ 65536

/-- The invariant of the reachable states: cursor in `0..65536`, `segment.max` in
`0..65535`, the ring ordered with every element inside the buffer, and the active
segment, when there is one, starting at an address not above the cursor. -/
def ReachInv (s : State) : Prop :=
  0 ≤ s.write_idx ∧ s.write_idx ≤ 65536
  ∧ 0 ≤ s.segment_max ∧ s.segment_max ≤ 65535
  ∧ Ordered s.ring
  ∧ (∀ g ∈ s.ring, SegmentInBuffer g)
  ∧ (s.segment_start = NO_SEGMENT_START
      ∨ (0 ≤ s.segment_start ∧ s.segment_start ≤ 65535 ∧ s.segment_start ≤ s.write_idx))

/-- A first pass in which `Output_fake` is called with the largest `int`: a segment
started at 0, two bytes written, then `Output_fake(2147483647)`. -/
def example_overflow_steps : List Step :=
  [Step.op (Op.start_segment 0 0), Step.op (Op.byte 0x01), Step.op (Op.byte 0x02),
    Step.op (Op.fake 2147483647)]

/-! # Theorems -/

/-! ## Helper lemmas -/

theorem shiftRight_zero_int (v : Int) : v >>> (0 : Nat) = v := by
  cases v <;> rfl

/-- The shift of the model is the floor division by a power of two. -/
theorem shiftRight_eq_ediv_pow (v : Int) (n : Nat) : v >>> n = v / (2 : Int) ^ n := by
  cases v with
  | ofNat m =>
    show Int.ofNat (m >>> n) = Int.ofNat m / (2 : Int) ^ n
    rw [Nat.shiftRight_eq_div_pow]
    simp
  | negSucc m =>
    show Int.negSucc (m >>> n) = Int.negSucc m / (2 : Int) ^ n
    rw [Nat.shiftRight_eq_div_pow]
    have h : (2 : Int) ^ n = ((2 ^ n : Nat) : Int) := by push_cast; rfl
    rw [h]
    obtain ⟨k, hk⟩ : ∃ k, 2 ^ n = k + 1 := ⟨2 ^ n - 1, by have := Nat.two_pow_pos n; omega⟩
    rw [hk]
    rfl

/-- A value inside the range of `int` is unchanged by the conversion. -/
theorem to_int_of_int_range (x : Int) (h0 : -2147483648 ≤ x) (h1 : x ≤ 2147483647) :
    to_int x = x := by
  unfold to_int
  omega

theorem andThen_ok (r : Result) : r.andThen Result.ok = r := by
  cases r <;> rfl

theorem andThen_assoc (r : Result) (f g : State → Result) :
    (r.andThen f).andThen g = r.andThen (fun s => (f s).andThen g) := by
  cases r <;> rfl

/-- A byte written by `real_output` at an index inside the buffer. -/
theorem real_output_spec (byte : Int) (s : State) (h0 : 0 ≤ s.write_idx)
    (h1 : s.write_idx < 65536) :
    ∃ t, real_output byte s = Result.ok t
      ∧ t.buffer = (fun i => if i = s.write_idx then byte % 256 else s.buffer i)
      ∧ t.write_idx = s.write_idx + 1
      ∧ t.add_to_pc = s.add_to_pc + 1
      ∧ t.Output_byte_ptr = s.Output_byte_ptr
      ∧ t.pass_count = s.pass_count
      ∧ t.ring = s.ring
      ∧ t.diagnostics = s.diagnostics ++
          (if s.write_idx > s.segment_max ∧ s.pass_count = 0
            then [Diag.segment_reached_another_one] else [])
      ∧ t.segment_max =
          (if s.write_idx > s.segment_max ∧ s.pass_count = 0
            then (find_segment_max (s.write_idx + 1) s).segment_max else s.segment_max)
      ∧ t.lowest_written = (if s.write_idx < s.lowest_written then s.write_idx
          else s.lowest_written)
      ∧ t.highest_written = (if s.write_idx > s.highest_written then s.write_idx
          else s.highest_written)
      ∧ t.segment_start = s.segment_start
      ∧ t.segment_flags = s.segment_flags
      ∧ t.initvalue_set = s.initvalue_set := by
  have ht : to_int s.write_idx = s.write_idx :=
    to_int_of_int_range _ (by omega) (by omega)
  have hn : ¬ (s.write_idx ≥ OUTBUFFERSIZE) := by simp [OUTBUFFERSIZE]; omega
  have hb : s.write_idx < OUTBUFFERSIZE := by simp [OUTBUFFERSIZE]; omega
  by_cases hc : s.write_idx > s.segment_max <;> by_cases hp : s.pass_count = 0 <;>
    simp [real_output, border_crossed, store, Result.andThen, hc, hp, hn, hb, h0, ht,
      Throw_warning, find_segment_max]

/-- A byte written through `Output_byte` while it points to `real_output`. -/
theorem Output_byte_armed (byte : Int) (s : State)
    (hA : s.Output_byte_ptr = OutputByteFn.real_output) (h0 : 0 ≤ s.write_idx)
    (h1 : s.write_idx < 65536) :
    ∃ t ws, Output_byte byte s = Result.ok t
      ∧ t.buffer = (fun i => if i = s.write_idx then byte % 256 else s.buffer i)
      ∧ t.write_idx = s.write_idx + 1
      ∧ t.add_to_pc = s.add_to_pc + 1
      ∧ t.Output_byte_ptr = OutputByteFn.real_output
      ∧ t.diagnostics = s.diagnostics ++ ws
      ∧ (∀ d ∈ ws, d = Diag.segment_reached_another_one)
      ∧ (s.write_idx ≤ s.segment_max → ws = [] ∧ t.segment_max = s.segment_max) := by
  obtain ⟨t, ht, hbuf, hw, hpc, hptr, -, -, hd, hm, -⟩ := real_output_spec byte s h0 h1
  refine ⟨t, _, ?_, hbuf, hw, hpc, hptr.trans hA, hd, ?_, ?_⟩
  · simp [Output_byte, hA, ht]
  · intro d hd; split_ifs at hd <;> simp_all
  · intro hle
    have : ¬ (s.write_idx > s.segment_max) := by omega
    simp [this, hm]

/-- A run of bytes written through `Output_byte` while it points to `real_output`. -/
theorem Output_bytes_armed (bs : List Int) :
    ∀ s : State, s.Output_byte_ptr = OutputByteFn.real_output → 0 ≤ s.write_idx →
      s.write_idx + bs.length ≤ 65536 →
      ∃ t ws, Output_bytes bs s = Result.ok t
        ∧ (∀ (i : Nat) (b : Int), bs[i]? = some b → t.buffer (s.write_idx + i) = b % 256)
        ∧ (∀ j : Int, j < s.write_idx ∨ s.write_idx + bs.length ≤ j → t.buffer j = s.buffer j)
        ∧ t.write_idx = s.write_idx + bs.length
        ∧ t.add_to_pc = s.add_to_pc + bs.length
        ∧ t.Output_byte_ptr = OutputByteFn.real_output
        ∧ t.diagnostics = s.diagnostics ++ ws
        ∧ (∀ d ∈ ws, d = Diag.segment_reached_another_one)
        ∧ (s.write_idx + bs.length - 1 ≤ s.segment_max → ws = []) := by
  induction bs with
  | nil =>
    intro s hA _ _
    exact ⟨s, [], rfl, by simp, by simp, by simp, by simp, hA, by simp, by simp, by simp⟩
  | cons b bs ih =>
    intro s hA h0 h1
    simp only [List.length_cons, Nat.cast_add, Nat.cast_one] at h1
    obtain ⟨t1, w1, e1, b1, i1, p1, a1, d1, q1, m1⟩ := Output_byte_armed b s hA h0 (by omega)
    obtain ⟨t2, w2, e2, b2, f2, i2, p2, a2, d2, q2, m2⟩ :=
      ih t1 a1 (by omega) (by omega)
    refine ⟨t2, w1 ++ w2, ?_, ?_, ?_, ?_, ?_, a2, ?_, ?_, ?_⟩
    · simp [Output_bytes, e1, Result.andThen, e2]
    · intro i x hx
      cases i with
      | zero =>
        simp only [List.getElem?_cons_zero, Option.some.injEq] at hx
        subst hx
        rw [f2 _ (Or.inl (by simp [i1])), b1]
        simp
      | succ i =>
        simp only [List.getElem?_cons_succ] at hx
        have := b2 i x hx
        rw [i1] at this
        rw [← this]
        congr 1
        push_cast
        ring
    · intro j hj
      simp only [List.length_cons, Nat.cast_add, Nat.cast_one] at hj
      rw [f2 j (by omega), b1]
      have : j ≠ s.write_idx := by omega
      simp [this]
    · rw [i2, i1]; simp only [List.length_cons]; push_cast; ring
    · rw [p2, p1]; simp only [List.length_cons]; push_cast; ring
    · rw [d2, d1, List.append_assoc]
    · intro d hd
      rcases List.mem_append.mp hd with h | h
      · exact q1 d h
      · exact q2 d h
    · intro hle
      simp only [List.length_cons, Nat.cast_add, Nat.cast_one] at hle
      have hbs : (0 : Int) ≤ (bs.length : Int) := Int.natCast_nonneg _
      obtain ⟨hw1, hm1⟩ := m1 (by omega)
      have := m2 (by omega)
      simp [hw1, this]

/-- A run of bytes leaves the low bytes of a value behind, least significant first. -/
theorem wrote_of_bytes (k : Nat) (v : Int) (s : State) (bs : List Int) (r : Result)
    (hr : r = Output_bytes bs s) (hk : bs.length = k)
    (hb : ∀ i : Nat, i < k → bs[i]? = some (v >>> (8 * i)))
    (hA : s.Output_byte_ptr = OutputByteFn.real_output) (h0 : 0 ≤ s.write_idx)
    (h1 : s.write_idx + k ≤ 65536) : WroteLittleEndian k v s r := by
  subst hk
  obtain ⟨t, ws, e, b, f, i, p, -, d, q, -⟩ := Output_bytes_armed bs s hA h0 h1
  refine ⟨t, ws, hr.trans e, ?_, f, i, p, d, ?_⟩
  · intro j hj
    exact b j _ (hb j hj)
  · intro h
    exact absurd (q _ h) (by decide)

/-! ## Width-specific writes -/

/-- C1: in every state where `Output_byte` points to `real_output` (Armed) and the
cursor `c = write_idx` is an address (`0 ≤ c`), for each width of `k` bytes with
`c + k ≤ 65536` and each value inside the accepted range of the width (no range for
32 bits), `Output_8b`, `Output_16b`, `Output_24b` and `Output_32b` return, report no
number-out-of-range error, leave `(v >> 8*i) mod 256` in slot `c + i` for `i < k`,
leave every other slot unchanged, and raise `write_idx` and `add_to_pc` by `k`. -/
theorem C1_width_writes_least_significant_first (s : State) (v : Int)
    (hA : s.Output_byte_ptr = OutputByteFn.real_output) (h0 : 0 ≤ s.write_idx) :
    (s.write_idx + 1 ≤ 65536 → -0x80 ≤ v → v ≤ 0xff →
        WroteLittleEndian 1 v s (Output_8b v s))
    ∧ (s.write_idx + 2 ≤ 65536 → -0x8000 ≤ v → v ≤ 0xffff →
        WroteLittleEndian 2 v s (Output_16b v s))
    ∧ (s.write_idx + 3 ≤ 65536 → -0x800000 ≤ v → v ≤ 0xffffff →
        WroteLittleEndian 3 v s (Output_24b v s))
    ∧ (s.write_idx + 4 ≤ 65536 → WroteLittleEndian 4 v s (Output_32b v s)) := by
  refine ⟨?_, ?_, ?_, ?_⟩
  · intro h1 hlo hhi
    refine wrote_of_bytes 1 v s [v] _ ?_ rfl ?_ hA h0 h1
    · simp [Output_8b, hlo, hhi, Output_bytes, andThen_ok]
    · intro i hi
      interval_cases i
      simp [shiftRight_zero_int]
  · intro h1 hlo hhi
    refine wrote_of_bytes 2 v s [v, v >>> (8 : Nat)] _ ?_ rfl ?_ hA h0 h1
    · simp [Output_16b, hlo, hhi, Output_bytes, andThen_ok]
    · intro i hi
      interval_cases i <;> simp [shiftRight_zero_int]
  · intro h1 hlo hhi
    refine wrote_of_bytes 3 v s [v, v >>> (8 : Nat), v >>> (16 : Nat)] _ ?_ rfl ?_ hA h0 h1
    · simp [Output_24b, hlo, hhi, Output_bytes, andThen_ok, andThen_assoc]
    · intro i hi
      interval_cases i <;> simp [shiftRight_zero_int]
  · intro h1
    refine wrote_of_bytes 4 v s
      [v, v >>> (8 : Nat), v >>> (16 : Nat), v >>> (24 : Nat)] _ ?_ rfl ?_ hA h0 h1
    · simp [Output_32b, Output_bytes, andThen_ok, andThen_assoc]
    · intro i hi
      interval_cases i <;> simp [shiftRight_zero_int]

/-- C1 at a concrete input: the 16-bit write of `0x1234` at cursor `0xC000`. -/
theorem C1_width_writes_witness :
    WroteLittleEndian 2 0x1234 (Output_start_segment 0xC000 0 example_state)
      (Output_16b 0x1234 (Output_start_segment 0xC000 0 example_state)) :=
  (C1_width_writes_least_significant_first (Output_start_segment 0xC000 0 example_state)
    0x1234 rfl (by decide)).2.1 (by decide) (by decide) (by decide)

/-- C2: for every state and every value outside the accepted range of the width,
`Output_8b`, `Output_16b` and `Output_24b` return the state they were called in with
exactly one diagnostic added, the number-out-of-range error: buffer, cursor,
watermarks, `Output_byte`, the active segment and the ring are all unchanged. -/
theorem C2_out_of_range_writes_nothing (s : State) (v : Int) :
    (v > 0xff ∨ v < -0x80 → Output_8b v s = Result.ok
        { s with diagnostics := s.diagnostics ++ [Diag.exception_number_out_of_range] })
    ∧ (v > 0xffff ∨ v < -0x8000 → Output_16b v s = Result.ok
        { s with diagnostics := s.diagnostics ++ [Diag.exception_number_out_of_range] })
    ∧ (v > 0xffffff ∨ v < -0x800000 → Output_24b v s = Result.ok
        { s with diagnostics := s.diagnostics ++ [Diag.exception_number_out_of_range] }) := by
  refine ⟨?_, ?_, ?_⟩ <;> intro h
  · have : ¬ (v ≤ 0xff ∧ v ≥ -0x80) := by omega
    simp [Output_8b, this, Throw_error]
  · have : ¬ (v ≤ 0xffff ∧ v ≥ -0x8000) := by omega
    simp [Output_16b, this, Throw_error]
  · have : ¬ (v ≤ 0xffffff ∧ v ≥ -0x800000) := by omega
    simp [Output_24b, this, Throw_error]

/-- C2 at a concrete input: `0x100` is no 8-bit value, in a state where output is
disabled; the state stays as it was but for the one error. -/
theorem C2_out_of_range_witness :
    Output_8b 0x100 (Output_passinit example_state) = Result.ok
      { Output_passinit example_state with
        diagnostics := (Output_passinit example_state).diagnostics
          ++ [Diag.exception_number_out_of_range] } :=
  (C2_out_of_range_writes_nothing (Output_passinit example_state) 0x100).1
    (Or.inl (by decide))

/-! ## Writing while output is disabled -/

/-- C3: from the state left by `Output_passinit`, the bytes of a non-empty list of at
most 65536 values written one after another through `Output_byte` with no segment
started all return; exactly one diagnostic is added, the pc-undefined error;
`Output_byte` points to `real_output` afterwards; slot `i` holds `b_i mod 256` for
every `i`, the first byte included; and the cursor equals the number of bytes. -/
theorem C3_disarmed_self_healing (s : State) (bs : List Int) (hne : bs ≠ [])
    (hlen : bs.length ≤ 65536) :
    ∃ t, Output_bytes bs (Output_passinit s) = Result.ok t
      ∧ t.diagnostics = s.diagnostics ++ [Diag.exception_pc_undefined]
      ∧ t.Output_byte_ptr = OutputByteFn.real_output
      ∧ (∀ (i : Nat) (b : Int), bs[i]? = some b → t.buffer i = b % 256)
      ∧ t.write_idx = bs.length := by
  cases bs with
  | nil => exact absurd rfl hne
  | cons b rest =>
    simp only [List.length_cons] at hlen
    have e1 : Output_byte b (Output_passinit s)
        = real_output b
            { Throw_error Diag.exception_pc_undefined (Output_passinit s) with
              Output_byte_ptr := OutputByteFn.real_output } := rfl
    obtain ⟨t1, w1, e2, b1, i1, -, a1, d1, -, m1⟩ :=
      Output_byte_armed b
        { Throw_error Diag.exception_pc_undefined (Output_passinit s) with
          Output_byte_ptr := OutputByteFn.real_output } rfl (by simp [Output_passinit, Throw_error])
        (by simp [Output_passinit, Throw_error])
    have e3 : Output_byte b
        { Throw_error Diag.exception_pc_undefined (Output_passinit s) with
          Output_byte_ptr := OutputByteFn.real_output }
        = real_output b
            { Throw_error Diag.exception_pc_undefined (Output_passinit s) with
              Output_byte_ptr := OutputByteFn.real_output } := rfl
    rw [e3] at e2
    obtain ⟨hw1, hm1⟩ := m1 (by simp [Output_passinit, Throw_error, OUTBUFFERSIZE])
    subst hw1
    have i1z : t1.write_idx = 1 := by simpa [Output_passinit, Throw_error] using i1
    have hm1z : t1.segment_max = 65535 := by
      simpa [Output_passinit, Throw_error, OUTBUFFERSIZE] using hm1
    have hlen2 : (rest.length : Int) + 1 ≤ 65536 := by exact_mod_cast hlen
    obtain ⟨t2, w2, e4, b2, f2, i2, -, a2, d2, -, m2⟩ :=
      Output_bytes_armed rest t1 a1 (by omega) (by omega)
    have hw2 := m2 (by omega)
    subst hw2
    refine ⟨t2, ?_, ?_, a2, ?_, ?_⟩
    · simp [Output_bytes, e1, e2, Result.andThen, e4]
    · rw [d2, d1]
      simp [Output_passinit, Throw_error]
    · intro i x hx
      cases i with
      | zero =>
        simp only [List.getElem?_cons_zero, Option.some.injEq] at hx
        subst hx
        have := f2 0 (Or.inl (by omega))
        simp only [Nat.cast_zero]
        rw [this, b1]
        simp [Output_passinit, Throw_error]
      | succ i =>
        simp only [List.getElem?_cons_succ] at hx
        have := b2 i x hx
        rw [i1z] at this
        rw [← this]
        congr 1
        push_cast
        ring
    · rw [i2, i1z]
      simp only [List.length_cons]
      push_cast
      ring

/-- C3 at a concrete input: three bytes written right after `Output_passinit`. -/
theorem C3_disarmed_self_healing_witness :
    ∃ t, Output_bytes [0x01, 0x102, -1] (Output_passinit example_state) = Result.ok t
      ∧ t.diagnostics = example_state.diagnostics ++ [Diag.exception_pc_undefined]
      ∧ t.Output_byte_ptr = OutputByteFn.real_output
      ∧ (∀ (i : Nat) (b : Int),
          ([0x01, 0x102, -1] : List Int)[i]? = some b → t.buffer i = b % 256)
      ∧ t.write_idx = ([0x01, 0x102, -1] : List Int).length :=
  C3_disarmed_self_healing example_state [0x01, 0x102, -1] (by decide) (by decide)

/-! ## Capacity overflow -/

theorem real_output_serious (v : Int) (s : State) (hmax : s.segment_max ≤ 65535)
    (hc : 65536 ≤ s.write_idx) (hi : s.write_idx ≤ 2147483647) :
    real_output v s = Result.serious
      { s with diagnostics := s.diagnostics ++ [Diag.produced_too_much_code] } := by
  have ht : to_int s.write_idx = s.write_idx :=
    to_int_of_int_range _ (by omega) hi
  have h1 : s.write_idx > s.segment_max := by omega
  have h2 : s.write_idx ≥ OUTBUFFERSIZE := by simp [OUTBUFFERSIZE]; omega
  simp [real_output, border_crossed, ht, h1, h2, Throw_serious_error, Result.andThen]

theorem real_output_not_serious (v : Int) (s t : State) (h0 : 0 ≤ s.write_idx)
    (hc : s.write_idx ≤ 65535) : real_output v s ≠ Result.serious t := by
  obtain ⟨u, e, -⟩ := real_output_spec v s h0 (by omega)
  rw [e]
  simp

theorem Output_fake_advance_serious (n : Int) (s : State) (hmax : s.segment_max ≤ 65535)
    (hc : 65536 ≤ s.write_idx + n - 1) (hi : s.write_idx + n - 1 ≤ 2147483647) :
    Output_fake_advance n s = Result.serious
      { s with diagnostics := s.diagnostics ++ [Diag.produced_too_much_code] } := by
  have ht : to_int (s.write_idx + n - 1) = s.write_idx + n - 1 :=
    to_int_of_int_range _ (by omega) hi
  have h1 : s.write_idx + n - 1 > s.segment_max := by omega
  have h2 : s.write_idx + n - 1 ≥ OUTBUFFERSIZE := by simp [OUTBUFFERSIZE]; omega
  simp [Output_fake_advance, border_crossed, ht, h1, h2, Throw_serious_error,
    Result.andThen]

theorem find_segment_max_loop_mem (a : Int) (l : List segment) (g : segment)
    (h : find_segment_max_loop a l = some g) : g ∈ l := by
  induction l with
  | nil => simp [find_segment_max_loop] at h
  | cons t rest ih =>
    by_cases ht : t.start ≤ a
    · simp only [find_segment_max_loop, ht, if_true] at h
      exact List.mem_cons_of_mem _ (ih h)
    · simp only [find_segment_max_loop, ht, if_false, Option.some.injEq] at h
      subst h
      exact List.mem_cons_self _ _

theorem find_segment_max_le (a : Int) (s : State) (hr : ∀ g ∈ s.ring, g.start ≤ 65535) :
    (find_segment_max a s).segment_max ≤ 65535 := by
  cases h : find_segment_max_loop a s.ring with
  | none => simp [find_segment_max, h, OUTBUFFERSIZE]
  | some g =>
    have := hr g (find_segment_max_loop_mem a s.ring g h)
    simp only [find_segment_max, h]
    omega

/-- C4, amended: in every pass and every state with `segment_max ≤ 65535`, for
positions that an `int` can hold (at most 2147483647),
(1) a single-byte write with cursor at or above 65536 is aborted by the serious error
"Produced too much code." with no slot of the buffer and no cursor changed;
(2) so is `Output_fake` of a size `n ≥ 1` with `cursor + n - 1 ≥ 65536`, when
`Output_byte` points to `real_output` or the cursor is at or above 65536;
(3) when `Output_byte` points to `no_output`, the cursor is in `0..65535` and the
starts in the ring are addresses, that `Output_fake` is aborted by the serious error
too, but after its dummy byte reported the pc-undefined error, stored 0 at the cursor
and advanced the cursor by one;
(4) a single-byte write with cursor in `0..65535` is never aborted by the serious
error. -/
theorem C4_capacity_overflow_is_fatal (s : State) (hmax : s.segment_max ≤ 65535) :
    (∀ v : Int, 65536 ≤ s.write_idx → s.write_idx ≤ 2147483647 →
      ∃ t ws, Output_byte v s = Result.serious t
        ∧ t.buffer = s.buffer ∧ t.write_idx = s.write_idx
        ∧ t.diagnostics = s.diagnostics ++ ws ++ [Diag.produced_too_much_code])
    ∧ (∀ n : Int, 1 ≤ n → 65536 ≤ s.write_idx + n - 1 →
        s.write_idx + n - 1 ≤ 2147483647 →
        s.Output_byte_ptr = OutputByteFn.real_output ∨ 65536 ≤ s.write_idx →
      ∃ t ws, Output_fake n s = Result.serious t
        ∧ t.buffer = s.buffer ∧ t.write_idx = s.write_idx
        ∧ t.diagnostics = s.diagnostics ++ ws ++ [Diag.produced_too_much_code])
    ∧ (∀ n : Int, 1 ≤ n → 65536 ≤ s.write_idx + n - 1 →
        s.write_idx + n - 1 ≤ 2147483647 →
        s.Output_byte_ptr = OutputByteFn.no_output → 0 ≤ s.write_idx →
        s.write_idx ≤ 65535 → (∀ g ∈ s.ring, g.start ≤ 65535) →
      ∃ t ws, Output_fake n s = Result.serious t
        ∧ t.buffer = (fun i => if i = s.write_idx then 0 else s.buffer i)
        ∧ t.write_idx = s.write_idx + 1
        ∧ t.diagnostics = s.diagnostics ++ [Diag.exception_pc_undefined] ++ ws
            ++ [Diag.produced_too_much_code])
    ∧ (∀ (v : Int) (t : State), 0 ≤ s.write_idx → s.write_idx ≤ 65535 →
        Output_byte v s ≠ Result.serious t) := by
  have single : ∀ v : Int, 65536 ≤ s.write_idx → s.write_idx ≤ 2147483647 →
      ∃ t ws, Output_byte v s = Result.serious t
        ∧ t.buffer = s.buffer ∧ t.write_idx = s.write_idx
        ∧ t.diagnostics = s.diagnostics ++ ws ++ [Diag.produced_too_much_code] := by
    intro v hc hi
    cases hp : s.Output_byte_ptr with
    | real_output =>
      refine ⟨{ s with diagnostics := s.diagnostics ++ [Diag.produced_too_much_code] }, [],
        ?_, rfl, rfl, ?_⟩
      · have h := real_output_serious v s hmax hc hi
        simpa [Output_byte, hp] using h
      · simp
    | no_output =>
      refine ⟨{ s with
          Output_byte_ptr := OutputByteFn.real_output
          diagnostics := s.diagnostics
            ++ [Diag.exception_pc_undefined] ++ [Diag.produced_too_much_code] },
        [Diag.exception_pc_undefined], ?_, ?_, ?_, ?_⟩
      · simp only [Output_byte, hp, no_output]
        exact real_output_serious v _ hmax hc hi
      · rfl
      · rfl
      · simp [Throw_error]
  refine ⟨single, ?_, ?_, ?_⟩
  · intro n hn hc hi hor
    have hn1 : ¬ n < 1 := by omega
    cases hp : s.Output_byte_ptr with
    | real_output =>
      refine ⟨{ s with diagnostics := s.diagnostics ++ [Diag.produced_too_much_code] }, [],
        ?_, rfl, rfl, ?_⟩
      · have h := Output_fake_advance_serious n s hmax hc hi
        simpa [Output_fake, hn1, hp] using h
      · simp
    | no_output =>
      have hc2 : 65536 ≤ s.write_idx := by
        rcases hor with h | h
        · rw [hp] at h; exact absurd h (by decide)
        · exact h
      obtain ⟨t, ws, e, hb, hw, hd⟩ := single 0 hc2 (by omega)
      refine ⟨t, ws, ?_, hb, hw, hd⟩
      simp [Output_fake, hn1, hp, e, Result.andThen]
  · intro n hn hc hi hp h0 h1 hr
    have hn1 : ¬ n < 1 := by omega
    obtain ⟨t1, e1, b1, i1, -, -, -, -, d1, m1, -⟩ :=
      real_output_spec 0
        { Throw_error Diag.exception_pc_undefined s with
          Output_byte_ptr := OutputByteFn.real_output } h0
        (show s.write_idx < 65536 by omega)
    have e0 : Output_byte 0 s = Result.ok t1 := by
      rw [← e1]
      simp [Output_byte, hp, no_output]
    have hm1z : t1.segment_max ≤ 65535 := by
      rw [m1]
      split_ifs
      · exact find_segment_max_le _ _ hr
      · exact hmax
    have hi1 : t1.write_idx = s.write_idx + 1 := i1
    refine ⟨{ t1 with diagnostics := t1.diagnostics ++ [Diag.produced_too_much_code] },
      (if s.write_idx > s.segment_max ∧ s.pass_count = 0
        then [Diag.segment_reached_another_one] else []),
      ?_, ?_, hi1, ?_⟩
    · simp only [Output_fake, hn1, hp, if_false, if_true, e0, Result.andThen]
      exact Output_fake_advance_serious (n - 1) t1 hm1z (by omega) (by omega)
    · simpa using b1
    · simp only [d1]
      simp only [Throw_error, List.append_assoc]
  · intro v t h0 hc
    cases hp : s.Output_byte_ptr with
    | real_output =>
      simp only [Output_byte, hp]
      exact real_output_not_serious v s t h0 hc
    | no_output =>
      simp only [Output_byte, hp, no_output]
      exact real_output_not_serious v _ t h0 hc

/-- C4 at a concrete input: a segment started at `0xFFF0` and `Output_fake(0x20)`,
whose last byte would be at `0x1000F`. -/
theorem C4_capacity_overflow_witness :
    (Output_start_segment 0xFFF0 0 example_state).segment_max ≤ 65535
    ∧ ∃ t ws, Output_fake 0x20 (Output_start_segment 0xFFF0 0 example_state)
          = Result.serious t
        ∧ t.buffer = (Output_start_segment 0xFFF0 0 example_state).buffer
        ∧ t.write_idx = (Output_start_segment 0xFFF0 0 example_state).write_idx
        ∧ t.diagnostics = (Output_start_segment 0xFFF0 0 example_state).diagnostics
            ++ ws ++ [Diag.produced_too_much_code] :=
  ⟨by decide,
    (C4_capacity_overflow_is_fatal (Output_start_segment 0xFFF0 0 example_state)
      (by decide)).2.1 0x20 (by decide) (by decide) (by decide) (Or.inl rfl)⟩

/-- C4 as stated fails where output is disabled: right after `Output_passinit`
(`segment_max = 65535`, cursor 0), `Output_fake(65537)` is aborted by the serious
error, but only after the dummy byte was stored in slot 0, which held `0xEA`, and
the cursor was advanced to 1. -/
theorem C4_fake_disarmed_counterexample :
    (Output_passinit example_state).segment_max ≤ 65535
    ∧ 65536 ≤ (Output_passinit example_state).write_idx + 65537 - 1
    ∧ (Output_passinit example_state).write_idx = 0
    ∧ (Output_passinit example_state).buffer 0 = 0xEA
    ∧ ∃ t, Output_fake 65537 (Output_passinit example_state) = Result.serious t
        ∧ t.write_idx = 1 ∧ t.buffer 0 = 0 := by
  refine ⟨by decide, by decide, rfl, rfl, _, rfl, ?_, ?_⟩
  · decide
  · decide

/-! ## Segment ring: limit, insertion, overlap -/

theorem segment_le_trans {a b c : segment} (h1 : segment_le a b) (h2 : segment_le b c) :
    segment_le a c := by
  unfold segment_le at *
  omega

theorem find_segment_max_loop_none (a : Int) (l : List segment)
    (h : find_segment_max_loop a l = none) : ∀ g ∈ l, g.start ≤ a := by
  induction l with
  | nil => simp
  | cons t rest ih =>
    by_cases ht : t.start ≤ a
    · simp only [find_segment_max_loop, ht, if_true] at h
      intro g hg
      rcases List.mem_cons.mp hg with rfl | hg
      · exact ht
      · exact ih h g hg
    · simp [find_segment_max_loop, ht] at h

theorem find_segment_max_loop_some (a : Int) (l : List segment) (g : segment)
    (hord : Ordered l) (h : find_segment_max_loop a l = some g) :
    g ∈ l ∧ a < g.start ∧ ∀ x ∈ l, a < x.start → g.start ≤ x.start := by
  induction l with
  | nil => simp [find_segment_max_loop] at h
  | cons t rest ih =>
    have hp := List.pairwise_cons.mp hord
    by_cases ht : t.start ≤ a
    · simp only [find_segment_max_loop, ht, if_true] at h
      obtain ⟨hm, hlt, hmin⟩ := ih hp.2 h
      refine ⟨List.mem_cons_of_mem _ hm, hlt, ?_⟩
      intro x hx hax
      rcases List.mem_cons.mp hx with rfl | hx
      · omega
      · exact hmin x hx hax
    · simp only [find_segment_max_loop, ht, if_false, Option.some.injEq] at h
      subst h
      refine ⟨List.mem_cons_self _ _, by omega, ?_⟩
      intro x hx _
      rcases List.mem_cons.mp hx with rfl | hx
      · exact le_refl _
      · have := hp.1 x hx
        unfold segment_le at this
        omega

/-- C5: for every ring ordered by `(start, length)` and every address `a` in
`0..65535`, `find_segment_max(a)` leaves the elements of the ring as they are and
sets `segment.max` to `g.start - 1` for an element `g` with `a < g.start` whose start
is the smallest among the elements with a start above `a`, or to 65535 when no
element has a start above `a`. -/
theorem C5_find_segment_max_nearest_following_start (s : State) (a : Int)
    (_ha0 : 0 ≤ a) (_ha1 : a ≤ 65535) (hord : Ordered s.ring) :
    (find_segment_max a s).ring = s.ring
    ∧ ((∃ g ∈ s.ring, a < g.start ∧ (∀ x ∈ s.ring, a < x.start → g.start ≤ x.start)
          ∧ (find_segment_max a s).segment_max = g.start - 1)
      ∨ ((∀ x ∈ s.ring, x.start ≤ a) ∧ (find_segment_max a s).segment_max = 65535)) := by
  refine ⟨rfl, ?_⟩
  cases h : find_segment_max_loop a s.ring with
  | none =>
    right
    refine ⟨find_segment_max_loop_none a s.ring h, ?_⟩
    simp [find_segment_max, h, OUTBUFFERSIZE]
  | some g =>
    left
    obtain ⟨hm, hlt, hmin⟩ := find_segment_max_loop_some a s.ring g hord h
    refine ⟨g, hm, hlt, hmin, ?_⟩
    simp [find_segment_max, h]

/-- C5 at the concrete inputs of the claim: with segments starting at `0x2000` and
`0x3000` the limit for `0x1500` is `0x1FFF`; with an empty ring it is `0xFFFF`. -/
theorem C5_find_segment_max_witness :
    ((find_segment_max 0x1500 example_two_segments).ring = example_two_segments.ring
      ∧ ((∃ g ∈ example_two_segments.ring, 0x1500 < g.start
            ∧ (∀ x ∈ example_two_segments.ring, 0x1500 < x.start → g.start ≤ x.start)
            ∧ (find_segment_max 0x1500 example_two_segments).segment_max = g.start - 1)
        ∨ ((∀ x ∈ example_two_segments.ring, x.start ≤ 0x1500)
            ∧ (find_segment_max 0x1500 example_two_segments).segment_max = 65535)))
    ∧ (find_segment_max 0x1500 example_two_segments).segment_max = 0x1FFF
    ∧ (find_segment_max 0x1500 example_state).segment_max = 0xFFFF :=
  ⟨C5_find_segment_max_nearest_following_start example_two_segments 0x1500
      (by decide) (by decide) (by simp [Ordered, example_two_segments, segment_le]),
    by decide, by decide⟩

theorem link_segment_loop_perm (n : segment) (l : List segment) :
    (link_segment_loop n l).Perm (n :: l) := by
  induction l with
  | nil => exact List.Perm.refl _
  | cons t rest ih =>
    by_cases hc : t.start < n.start ∨ (t.start = n.start ∧ t.length < n.length)
    · simp only [link_segment_loop, hc, if_true]
      exact (List.Perm.cons t ih).trans (List.Perm.swap n t rest)
    · simp only [link_segment_loop, hc, if_false]
      exact List.Perm.refl _

theorem link_segment_loop_ordered (n : segment) (l : List segment) (hord : Ordered l) :
    Ordered (link_segment_loop n l) := by
  induction l with
  | nil => simp [link_segment_loop, Ordered]
  | cons t rest ih =>
    have hp := List.pairwise_cons.mp hord
    by_cases hc : t.start < n.start ∨ (t.start = n.start ∧ t.length < n.length)
    · simp only [link_segment_loop, hc, if_true]
      refine List.pairwise_cons.mpr ⟨?_, ih hp.2⟩
      intro x hx
      rcases List.mem_cons.mp ((link_segment_loop_perm n rest).mem_iff.mp hx) with rfl | hx
      · unfold segment_le; omega
      · exact hp.1 x hx
    · simp only [link_segment_loop, hc, if_false]
      have hnt : segment_le n t := by unfold segment_le; omega
      refine List.pairwise_cons.mpr ⟨?_, hord⟩
      intro x hx
      rcases List.mem_cons.mp hx with rfl | hx
      · exact hnt
      · exact segment_le_trans hnt (hp.1 x hx)

theorem check_segment_loop_iff (a : Int) (l : List segment) (hord : Ordered l) :
    check_segment_loop a l = true ↔ ∃ g ∈ l, Covers g a := by
  induction l with
  | nil => simp [check_segment_loop]
  | cons t rest ih =>
    have hp := List.pairwise_cons.mp hord
    by_cases h1 : t.start ≤ a
    · by_cases h2 : t.start + t.length > a
      · simp only [check_segment_loop, h1, h2, if_true, true_iff]
        exact ⟨t, List.mem_cons_self _ _, h1, h2⟩
      · simp only [check_segment_loop, h1, h2, if_true, if_false, ih hp.2]
        constructor
        · rintro ⟨g, hg, hc⟩
          exact ⟨g, List.mem_cons_of_mem _ hg, hc⟩
        · rintro ⟨g, hg, hc⟩
          rcases List.mem_cons.mp hg with rfl | hg
          · exact absurd hc.2 h2
          · exact ⟨g, hg, hc⟩
    · simp only [check_segment_loop, h1, if_false, Bool.false_eq_true, false_iff]
      rintro ⟨g, hg, hc⟩
      rcases List.mem_cons.mp hg with rfl | hg
      · exact h1 hc.1
      · have := hp.1 g hg
        unfold segment_le at this
        unfold Covers at hc
        omega

/-! ## Segment lifecycle -/

theorem Output_end_segment_eligible (s : State) (h : Eligible s) :
    Output_end_segment s = link_segment s.segment_start (s.write_idx - s.segment_start) s := by
  obtain ⟨h1, h2, h3, h4⟩ := h
  have h5 : ¬ (s.write_idx - s.segment_start = 0) := by omega
  simp [Output_end_segment, h1, h2, h3, h5]

theorem Output_end_segment_not_eligible (s : State) (h : ¬ Eligible s) :
    Output_end_segment s = s := by
  unfold Output_end_segment
  split_ifs with h1 h2 h3 h4
  · rfl
  · rfl
  · rfl
  · rfl
  · exfalso
    apply h
    refine ⟨not_not.mp h1, h2, not_not.mp h3, ?_⟩
    omega

theorem Output_end_segment_frame (s : State) :
    (Output_end_segment s).buffer = s.buffer
    ∧ (Output_end_segment s).write_idx = s.write_idx
    ∧ (Output_end_segment s).lowest_written = s.lowest_written
    ∧ (Output_end_segment s).highest_written = s.highest_written
    ∧ (Output_end_segment s).diagnostics = s.diagnostics
    ∧ (Output_end_segment s).pass_count = s.pass_count
    ∧ (Output_end_segment s).Output_byte_ptr = s.Output_byte_ptr
    ∧ (Output_end_segment s).segment_start = s.segment_start
    ∧ (Output_end_segment s).segment_flags = s.segment_flags
    ∧ (Output_end_segment s).segment_max = s.segment_max
    ∧ (Output_end_segment s).add_to_pc = s.add_to_pc
    ∧ (Output_end_segment s).initvalue_set = s.initvalue_set := by
  by_cases h : Eligible s
  · rw [Output_end_segment_eligible s h]
    simp [link_segment]
  · rw [Output_end_segment_not_eligible s h]
    simp

theorem Output_end_segment_ordered (s : State) (hord : Ordered s.ring) :
    Ordered (Output_end_segment s).ring := by
  by_cases h : Eligible s
  · rw [Output_end_segment_eligible s h]
    exact link_segment_loop_ordered _ _ hord
  · rw [Output_end_segment_not_eligible s h]
    exact hord

theorem check_segment_frame (a : Int) (s : State) :
    (check_segment a s).buffer = s.buffer
    ∧ (check_segment a s).write_idx = s.write_idx
    ∧ (check_segment a s).lowest_written = s.lowest_written
    ∧ (check_segment a s).highest_written = s.highest_written
    ∧ (check_segment a s).pass_count = s.pass_count
    ∧ (check_segment a s).Output_byte_ptr = s.Output_byte_ptr
    ∧ (check_segment a s).segment_start = s.segment_start
    ∧ (check_segment a s).segment_flags = s.segment_flags
    ∧ (check_segment a s).ring = s.ring
    ∧ (check_segment a s).add_to_pc = s.add_to_pc
    ∧ (check_segment a s).initvalue_set = s.initvalue_set
    ∧ (check_segment a s).diagnostics = s.diagnostics ++
        (if check_segment_loop a s.ring then [Diag.segment_starts_inside_another_one]
          else []) := by
  unfold check_segment
  split_ifs <;> simp [Throw_warning]

/-- The fields `Output_start_segment` sets or keeps, whatever the pass. -/
theorem Output_start_segment_frame (delta : Int) (flags : Nat) (s : State) :
    (Output_start_segment delta flags s).write_idx = (s.write_idx + delta) % 65536
    ∧ (Output_start_segment delta flags s).segment_start = (s.write_idx + delta) % 65536
    ∧ (Output_start_segment delta flags s).segment_flags = flags
    ∧ (Output_start_segment delta flags s).Output_byte_ptr = OutputByteFn.real_output
    ∧ (Output_start_segment delta flags s).buffer = s.buffer
    ∧ (Output_start_segment delta flags s).lowest_written = s.lowest_written
    ∧ (Output_start_segment delta flags s).highest_written = s.highest_written
    ∧ (Output_start_segment delta flags s).pass_count = s.pass_count
    ∧ (Output_start_segment delta flags s).add_to_pc = s.add_to_pc
    ∧ (Output_start_segment delta flags s).initvalue_set = s.initvalue_set
    ∧ (Output_start_segment delta flags s).ring = (Output_end_segment s).ring := by
  obtain ⟨f1, f2, f3, f4, -, f6, -, -, -, -, f11, f12⟩ := Output_end_segment_frame s
  unfold Output_start_segment
  by_cases hp : s.pass_count = 0 <;> by_cases ho : flags &&& SEGMENT_FLAG_OVERLAY = 0 <;>
    simp [Output_start_segment_assign, hp, ho, f1, f2, f3, f4, f6, f11, f12,
      find_segment_max, check_segment_frame]

theorem Output_start_segment_diagnostics (delta : Int) (flags : Nat) (s : State) :
    (Output_start_segment delta flags s).diagnostics = s.diagnostics ++
      (if s.pass_count = 0 ∧ flags &&& SEGMENT_FLAG_OVERLAY = 0
          ∧ check_segment_loop ((s.write_idx + delta) % 65536) (Output_end_segment s).ring
            = true
        then [Diag.segment_starts_inside_another_one] else []) := by
  obtain ⟨-, f2, -, -, f5, f6, -⟩ := Output_end_segment_frame s
  unfold Output_start_segment
  by_cases hp : s.pass_count = 0 <;> by_cases ho : flags &&& SEGMENT_FLAG_OVERLAY = 0 <;>
    simp [Output_start_segment_assign, hp, ho, f2, f5, f6, find_segment_max,
      check_segment_frame]

/-- C6: for every state whose ring is ordered by `(start, length)`,
`Output_start_segment(delta, flags)` adds the warning "Segment starts inside another
one" exactly once and nothing else when the pass is the first, the overlay flag is
not in `flags`, and some element of the ring, as the implicit `Output_end_segment`
leaves it, covers the new cursor; in every other case it adds no diagnostic at all. -/
theorem C6_overlap_warning_exactly_when_covered (s : State) (delta : Int) (flags : Nat)
    (hord : Ordered s.ring) :
    (StartsInside delta flags s →
      (Output_start_segment delta flags s).diagnostics
        = s.diagnostics ++ [Diag.segment_starts_inside_another_one])
    ∧ (¬ StartsInside delta flags s →
      (Output_start_segment delta flags s).diagnostics = s.diagnostics)
    ∧ (Output_start_segment delta flags s).write_idx = (s.write_idx + delta) % 65536 := by
  have hiff := check_segment_loop_iff ((s.write_idx + delta) % 65536)
    (Output_end_segment s).ring (Output_end_segment_ordered s hord)
  refine ⟨?_, ?_, (Output_start_segment_frame delta flags s).1⟩
  · rintro ⟨h1, h2, h3⟩
    rw [Output_start_segment_diagnostics]
    simp [h1, h2, hiff.mpr h3]
  · intro hn
    rw [Output_start_segment_diagnostics]
    have : ¬ (s.pass_count = 0 ∧ flags &&& SEGMENT_FLAG_OVERLAY = 0
        ∧ check_segment_loop ((s.write_idx + delta) % 65536) (Output_end_segment s).ring
          = true) := by
      rintro ⟨h1, h2, h3⟩
      exact hn ⟨h1, h2, hiff.mp h3⟩
    simp [this]

/-- C6 at the concrete input of the claim: with `(0x1000, 0x10)` committed, a new
segment without flags at `0x1005` gives exactly one warning in the first pass. -/
theorem C6_overlap_warning_witness :
    StartsInside 0x1005 0 (Output_passinit example_one_segment)
    ∧ (Output_start_segment 0x1005 0 (Output_passinit example_one_segment)).diagnostics
        = [Diag.segment_starts_inside_another_one] :=
  have h : StartsInside 0x1005 0 (Output_passinit example_one_segment) :=
    ⟨rfl, rfl, { start := 0x1000, length := 0x10 }, by decide, by decide, by decide⟩
  ⟨h, (C6_overlap_warning_exactly_when_covered (Output_passinit example_one_segment)
    0x1005 0 (by simp [Ordered, Output_passinit, example_one_segment])).1 h⟩

/-- C7: for every ring ordered by `(start, length)` and every pair `(start, length)`,
the ring `link_segment` leaves is ordered again, and it is a rearrangement of the old
ring with the one new element added, so that an element already present is there
once more than before. -/
theorem C7_link_segment_keeps_order_and_entries (s : State) (start length : Int)
    (hord : Ordered s.ring) :
    Ordered (link_segment start length s).ring
    ∧ (link_segment start length s).ring.Perm ({ start := start, length := length } :: s.ring)
    ∧ (link_segment start length s).ring.count { start := start, length := length }
        = s.ring.count { start := start, length := length } + 1
    ∧ (∀ g : segment, g ≠ { start := start, length := length } →
        (link_segment start length s).ring.count g = s.ring.count g) := by
  have hp := link_segment_loop_perm { start := start, length := length } s.ring
  refine ⟨link_segment_loop_ordered _ _ hord, hp, ?_, ?_⟩
  · show (link_segment_loop _ s.ring).count _ = _
    rw [hp.count_eq]
    simp
  · intro g hg
    show (link_segment_loop _ s.ring).count _ = _
    rw [hp.count_eq]
    exact List.count_cons_of_ne hg _

/-- C7 at a concrete input: a pair that is already in the ring is linked in again. -/
theorem C7_link_segment_witness :
    Ordered (link_segment 0x2000 0x10 example_two_segments).ring
    ∧ (link_segment 0x2000 0x10 example_two_segments).ring.Perm
        ({ start := 0x2000, length := 0x10 } :: example_two_segments.ring)
    ∧ (link_segment 0x2000 0x10 example_two_segments).ring.count
          { start := 0x2000, length := 0x10 }
        = example_two_segments.ring.count { start := 0x2000, length := 0x10 } + 1
    ∧ (∀ g : segment, g ≠ { start := 0x2000, length := 0x10 } →
        (link_segment 0x2000 0x10 example_two_segments).ring.count g
          = example_two_segments.ring.count g) :=
  C7_link_segment_keeps_order_and_entries example_two_segments 0x2000 0x10
    (by simp [Ordered, example_two_segments, segment_le])

/-- C8: for every state, every address change (negative ones included) and every
flags value, after `Output_start_segment` the cursor is `(c + address_change) mod
65536`, a value in `0..65535`, the start of the active segment is that new cursor,
its flags are the given flags, `Output_byte` points to `real_output`, and the buffer
and both watermarks are as before. -/
theorem C8_start_segment_wraps_cursor (s : State) (address_change : Int) (flags : Nat) :
    (Output_start_segment address_change flags s).write_idx
        = (s.write_idx + address_change) % 65536
    ∧ 0 ≤ (Output_start_segment address_change flags s).write_idx
    ∧ (Output_start_segment address_change flags s).write_idx ≤ 65535
    ∧ (Output_start_segment address_change flags s).segment_start
        = (Output_start_segment address_change flags s).write_idx
    ∧ (Output_start_segment address_change flags s).segment_flags = flags
    ∧ (Output_start_segment address_change flags s).Output_byte_ptr
        = OutputByteFn.real_output
    ∧ (Output_start_segment address_change flags s).buffer = s.buffer
    ∧ (Output_start_segment address_change flags s).lowest_written = s.lowest_written
    ∧ (Output_start_segment address_change flags s).highest_written
        = s.highest_written := by
  obtain ⟨f1, f2, f3, f4, f5, f6, f7, -⟩ :=
    Output_start_segment_frame address_change flags s
  refine ⟨f1, ?_, ?_, f2.trans f1.symm, f3, f4, f5, f6, f7⟩
  · rw [f1]; omega
  · rw [f1]; omega

/-- C9: for every state, `Output_end_segment` links one new element into the ring
exactly when the pass is the first, a segment is active, the invisible flag is not
set and the cursor differs from the start of the segment; the element is
`(segment.start, write_idx - segment.start)`, linked in by `link_segment`; in every
other case the ring is unchanged; the buffer, the cursor and both watermarks are
unchanged in all cases. -/
theorem C9_end_segment_commits_exactly_eligible (s : State) :
    (Eligible s →
      (Output_end_segment s).ring
          = link_segment_loop
              { start := s.segment_start, length := s.write_idx - s.segment_start } s.ring
        ∧ (Output_end_segment s).ring.Perm
            ({ start := s.segment_start, length := s.write_idx - s.segment_start } :: s.ring)
        ∧ (Output_end_segment s).ring.length = s.ring.length + 1)
    ∧ (¬ Eligible s → (Output_end_segment s).ring = s.ring)
    ∧ (Output_end_segment s).buffer = s.buffer
    ∧ (Output_end_segment s).write_idx = s.write_idx
    ∧ (Output_end_segment s).lowest_written = s.lowest_written
    ∧ (Output_end_segment s).highest_written = s.highest_written := by
  obtain ⟨f1, f2, f3, f4, -⟩ := Output_end_segment_frame s
  refine ⟨?_, ?_, f1, f2, f3, f4⟩
  · intro h
    rw [Output_end_segment_eligible s h]
    have hp := link_segment_loop_perm
      { start := s.segment_start, length := s.write_idx - s.segment_start } s.ring
    exact ⟨rfl, hp, by simpa using hp.length_eq⟩
  · intro h
    rw [Output_end_segment_not_eligible s h]

/-- C9 at a concrete input: a segment started at `0xC000` with two bytes written is
committed as `(0xC000, 2)`. -/
theorem C9_end_segment_witness :
    ∃ t, Output_16b 0x1234 (Output_start_segment 0xC000 0 example_state) = Result.ok t
      ∧ Eligible t
      ∧ (Output_end_segment t).ring = [{ start := 0xC000, length := 2 }] := by
  refine ⟨_, rfl, ?_, ?_⟩
  · exact ⟨by decide, by decide, by decide, by decide⟩
  · exact ((C9_end_segment_commits_exactly_eligible _).1
      ⟨by decide, by decide, by decide, by decide⟩).1

/-- C10: for every state, after `Output_passinit` the cursor is 0, `lowest_written`
is 65535 and `highest_written` is 0 (so the highest is below the lowest),
`Output_byte` points to `no_output`, no segment is active, `segment.max` is 65535 and
the flags are empty, while the ring, every slot of the buffer and everything else
are exactly as before. -/
theorem C10_passinit_resets_per_pass_state (s : State) :
    (Output_passinit s).write_idx = 0
    ∧ (Output_passinit s).lowest_written = 65535
    ∧ (Output_passinit s).highest_written = 0
    ∧ (Output_passinit s).highest_written < (Output_passinit s).lowest_written
    ∧ (Output_passinit s).Output_byte_ptr = OutputByteFn.no_output
    ∧ (Output_passinit s).segment_start = NO_SEGMENT_START
    ∧ (Output_passinit s).segment_max = 65535
    ∧ (Output_passinit s).segment_flags = 0
    ∧ (Output_passinit s).ring = s.ring
    ∧ (Output_passinit s).buffer = s.buffer
    ∧ (Output_passinit s).list_head_start = s.list_head_start
    ∧ (Output_passinit s).list_head_length = s.list_head_length
    ∧ (Output_passinit s).initvalue_set = s.initvalue_set
    ∧ (Output_passinit s).pass_count = s.pass_count
    ∧ (Output_passinit s).add_to_pc = s.add_to_pc
    ∧ (Output_passinit s).pass_undefined_count = s.pass_undefined_count
    ∧ (Output_passinit s).diagnostics = s.diagnostics := by
  simp [Output_passinit, OUTBUFFERSIZE]

/-! ## Saving the output file -/

theorem shiftRight_8_of_address (a : Int) (h0 : 0 ≤ a) (h1 : a ≤ 65535) :
    (a >>> (8 : Nat)) % 256 = a / 256 := by
  rw [shiftRight_eq_ediv_pow]
  norm_num
  omega

/-- C11: for every buffer and all watermarks in `0..65535`, with `(start, length)`
the emitted range (`(0, 0)` when `highest_written < lowest_written`, else
`(lowest_written, highest_written - lowest_written + 1)`), `Output_save_file` with
format Cbm writes exactly `start mod 256`, `start div 256` and then the slots
`[start, start + length)` of the buffer, and with format Plain or Unspecified it
writes exactly those slots and no header. -/
theorem C11_saved_bytes_cbm_and_plain (s : State)
    (h0 : 0 ≤ s.lowest_written) (h1 : s.lowest_written ≤ 65535)
    (_h2 : 0 ≤ s.highest_written) (_h3 : s.highest_written ≤ 65535) :
    Output_save_file out_format_t.OUTPUT_FORMAT_CBM s
        = [(emitted_range s.lowest_written s.highest_written).1 % 256,
            (emitted_range s.lowest_written s.highest_written).1 / 256]
          ++ buffer_slice s.buffer (emitted_range s.lowest_written s.highest_written).1
              (emitted_range s.lowest_written s.highest_written).2
    ∧ Output_save_file out_format_t.OUTPUT_FORMAT_PLAIN s
        = buffer_slice s.buffer (emitted_range s.lowest_written s.highest_written).1
            (emitted_range s.lowest_written s.highest_written).2
    ∧ Output_save_file out_format_t.OUTPUT_FORMAT_UNSPECIFIED s
        = buffer_slice s.buffer (emitted_range s.lowest_written s.highest_written).1
            (emitted_range s.lowest_written s.highest_written).2 := by
  by_cases h : s.highest_written < s.lowest_written
  · simp [Output_save_file, emitted_range, buffer_slice, fwrite, putc, h]
  · have hs := shiftRight_8_of_address s.lowest_written h0 h1
    simp [Output_save_file, emitted_range, buffer_slice, fwrite, putc, h, hs]

/-- C11 at the concrete input of the claim: directly after `Output_passinit` with
nothing written, Cbm gives the two bytes `0, 0` and Plain gives nothing. -/
theorem C11_saved_bytes_witness :
    Output_save_file out_format_t.OUTPUT_FORMAT_CBM (Output_passinit example_state) = [0, 0]
    ∧ Output_save_file out_format_t.OUTPUT_FORMAT_PLAIN (Output_passinit example_state)
        = [] := by
  have h := C11_saved_bytes_cbm_and_plain (Output_passinit example_state)
    (by decide) (by decide) (by decide) (by decide)
  refine ⟨h.1.trans (by decide), h.2.1.trans (by decide)⟩

/-- C12, amended: for every buffer and all watermarks with
`0 ≤ lowest_written ≤ highest_written ≤ 65535`, `Output_save_file` with format Apple
writes exactly four header bytes, each in `0..255`, and then the slots
`[start, start + length)` of the buffer, where `start = lowest_written`,
`length = highest_written - lowest_written + 1`, bytes 0 and 1 are `start` in
little-endian order, and bytes 2 and 3 are `length mod 65536` in little-endian
order, which is `length` itself whenever `length ≤ 65535`. -/
theorem C12_saved_bytes_apple (s : State)
    (h0 : 0 ≤ s.lowest_written) (h1 : s.lowest_written ≤ s.highest_written)
    (h2 : s.highest_written ≤ 65535) :
    ∃ b0 b1 b2 b3 : Int,
      Output_save_file out_format_t.OUTPUT_FORMAT_APPLE s
          = [b0, b1, b2, b3]
            ++ buffer_slice s.buffer s.lowest_written
                (s.highest_written - s.lowest_written + 1)
      ∧ (0 ≤ b0 ∧ b0 ≤ 255) ∧ (0 ≤ b1 ∧ b1 ≤ 255)
      ∧ (0 ≤ b2 ∧ b2 ≤ 255) ∧ (0 ≤ b3 ∧ b3 ≤ 255)
      ∧ b0 + 256 * b1 = s.lowest_written
      ∧ b2 + 256 * b3 = (s.highest_written - s.lowest_written + 1) % 65536
      ∧ (s.highest_written - s.lowest_written + 1 ≤ 65535 →
          b2 + 256 * b3 = s.highest_written - s.lowest_written + 1) := by
  have h : ¬ s.highest_written < s.lowest_written := by omega
  refine ⟨putc (s.lowest_written % 256), putc (s.lowest_written >>> (8 : Nat)),
    putc ((s.highest_written - s.lowest_written + 1) % 256),
    putc ((s.highest_written - s.lowest_written + 1) >>> (8 : Nat)), ?_, ?_⟩
  · simp [Output_save_file, buffer_slice, fwrite, h]
  · simp only [putc, shiftRight_eq_ediv_pow]
    norm_num
    omega

/-- C12 at the concrete input of the claim: start `0xC000` with the payload
`1, 2, 3` gives the bytes `00 C0 03 00 01 02 03`. -/
theorem C12_saved_bytes_apple_witness :
    Output_save_file out_format_t.OUTPUT_FORMAT_APPLE example_three_bytes
        = [0x00, 0xC0, 0x03, 0x00, 0x01, 0x02, 0x03]
    ∧ ∃ b0 b1 b2 b3 : Int,
      Output_save_file out_format_t.OUTPUT_FORMAT_APPLE example_three_bytes
          = [b0, b1, b2, b3]
            ++ buffer_slice example_three_bytes.buffer example_three_bytes.lowest_written
                (example_three_bytes.highest_written - example_three_bytes.lowest_written + 1)
      ∧ (0 ≤ b0 ∧ b0 ≤ 255) ∧ (0 ≤ b1 ∧ b1 ≤ 255)
      ∧ (0 ≤ b2 ∧ b2 ≤ 255) ∧ (0 ≤ b3 ∧ b3 ≤ 255)
      ∧ b0 + 256 * b1 = example_three_bytes.lowest_written
      ∧ b2 + 256 * b3 = (example_three_bytes.highest_written
          - example_three_bytes.lowest_written + 1) % 65536
      ∧ (example_three_bytes.highest_written - example_three_bytes.lowest_written + 1
            ≤ 65535 →
          b2 + 256 * b3 = example_three_bytes.highest_written
            - example_three_bytes.lowest_written + 1) :=
  ⟨by decide, C12_saved_bytes_apple example_three_bytes (by decide) (by decide) (by decide)⟩

/-- C12 as stated fails for the whole buffer: with `lowest_written = 0` and
`highest_written = 65535` the length is 65536, the two length bytes written are
`0, 0`, and `0 + 256 * 0` is not the length. -/
theorem C12_apple_full_buffer_counterexample :
    0 ≤ example_full_buffer.lowest_written
    ∧ example_full_buffer.lowest_written ≤ example_full_buffer.highest_written
    ∧ example_full_buffer.highest_written ≤ 65535
    ∧ example_full_buffer.highest_written - example_full_buffer.lowest_written + 1 = 65536
    ∧ ∃ rest : List Int,
      Output_save_file out_format_t.OUTPUT_FORMAT_APPLE example_full_buffer
          = 0 :: 0 :: 0 :: 0 :: rest
      ∧ rest.length = 65536
      ∧ (0 : Int) + 256 * 0
          ≠ example_full_buffer.highest_written - example_full_buffer.lowest_written + 1 := by
  refine ⟨by decide, by decide, by decide, by decide,
    fwrite example_full_buffer.buffer 0 65536, ?_, ?_, by decide⟩
  · have e1 : example_full_buffer.highest_written = 65535 := rfl
    have e2 : example_full_buffer.lowest_written = 0 := rfl
    simp only [Output_save_file, e1, e2, putc, shiftRight_eq_ediv_pow]
    norm_num
  · simp [fwrite]

/-! ## A single segment from start to file -/

theorem Output_8b_list_eq_bytes (bs : List Int) (hb : ∀ b ∈ bs, 0 ≤ b ∧ b ≤ 255) :
    ∀ s : State, Output_8b_list bs s = Output_bytes bs s := by
  induction bs with
  | nil => intro s; rfl
  | cons b rest ih =>
    intro s
    have h1 := hb b (List.mem_cons_self _ _)
    have h2 : b ≤ 0xff ∧ b ≥ -0x80 := by constructor <;> omega
    have h3 : Output_8b_list rest = Output_bytes rest :=
      funext (ih (fun x hx => hb x (List.mem_cons_of_mem _ hx)))
    simp only [Output_8b_list, Output_bytes, Output_8b, h2, and_self, if_true, h3]

/-- The watermarks and the other fields a run of bytes leaves behind. -/
theorem Output_bytes_watermarks (bs : List Int) :
    ∀ s : State, s.Output_byte_ptr = OutputByteFn.real_output → 0 ≤ s.write_idx →
      s.write_idx + bs.length ≤ 65536 →
      ∃ t, Output_bytes bs s = Result.ok t
        ∧ t.lowest_written = (if bs = [] then s.lowest_written
            else min s.lowest_written s.write_idx)
        ∧ t.highest_written = (if bs = [] then s.highest_written
            else max s.highest_written (s.write_idx + bs.length - 1))
        ∧ t.pass_count = s.pass_count
        ∧ t.segment_start = s.segment_start
        ∧ t.segment_flags = s.segment_flags
        ∧ t.ring = s.ring := by
  induction bs with
  | nil =>
    intro s _ _ _
    exact ⟨s, rfl, by simp⟩
  | cons b rest ih =>
    intro s hA h0 h1
    simp only [List.length_cons, Nat.cast_add, Nat.cast_one] at h1
    obtain ⟨t1, e1, -, i1, -, a1, p1, r1, -, -, l1, g1, s1, f1, -⟩ :=
      real_output_spec b s h0 (by omega)
    obtain ⟨t2, e2, l2, g2, p2, s2, f2, r2⟩ :=
      ih t1 (a1.trans hA) (by omega) (by omega)
    have e0 : Output_byte b s = Result.ok t1 := by
      simp [Output_byte, hA, e1]
    refine ⟨t2, ?_, ?_, ?_, p2.trans p1, s2.trans s1, f2.trans f1, r2.trans r1⟩
    · simp [Output_bytes, e0, Result.andThen, e2]
    · rw [l2, l1, i1]
      simp only [reduceCtorEq, if_false]
      split_ifs <;> simp only [min_def] <;> split_ifs <;> omega
    · rw [g2, g1, i1]
      simp only [reduceCtorEq, if_false, List.length_cons, Nat.cast_add, Nat.cast_one]
      by_cases hr : rest = []
      · subst hr
        simp only [if_true, List.length_nil, Nat.cast_zero, max_def]
        split_ifs <;> omega
      · simp only [hr, if_false, max_def]
        split_ifs <;> omega

theorem fwrite_eq_of_slots (buffer : Int → Int) (start : Int) (bs : List Int)
    (h : ∀ (i : Nat) (b : Int), bs[i]? = some b → buffer (start + i) = b) :
    fwrite buffer start bs.length = bs := by
  apply List.ext_getElem?
  intro i
  by_cases hi : i < bs.length
  · have hb : bs[i]? = some bs[i] := List.getElem?_eq_getElem hi
    simp [fwrite, hi, h i _ hb]
  · have hn : bs.length ≤ i := by omega
    rw [List.getElem?_eq_none hn]
    apply List.getElem?_eq_none
    simpa [fwrite] using hn

/-- C13: for every pass index, every ring, every address `A` in `0..65535` and every
non-empty list `bs` of values in `0..255` with `A + |bs| ≤ 65536`, the calls
`Output_passinit`, `Output_start_segment(A, 0)`, one `Output_8b` per element of `bs`
all return, and after `Output_end_segment` the file saved with format Cbm is exactly
`A mod 256`, `A div 256` followed by `bs`. -/
theorem C13_single_segment_end_to_end (s : State) (A : Int) (bs : List Int)
    (hA0 : 0 ≤ A) (hA1 : A ≤ 65535) (hne : bs ≠ [])
    (hb : ∀ b ∈ bs, 0 ≤ b ∧ b ≤ 255) (hlen : A + bs.length ≤ 65536) :
    ∃ t, Output_8b_list bs (Output_start_segment A 0 (Output_passinit s)) = Result.ok t
      ∧ Output_save_file out_format_t.OUTPUT_FORMAT_CBM (Output_end_segment t)
          = [A % 256, A / 256] ++ bs := by
  obtain ⟨f1, -, -, f4, -, f6, f7, -⟩ := Output_start_segment_frame A 0 (Output_passinit s)
  have hw : (Output_start_segment A 0 (Output_passinit s)).write_idx = A := by
    rw [f1]
    simp only [Output_passinit, zero_add]
    omega
  have hl : (Output_start_segment A 0 (Output_passinit s)).lowest_written = 65535 := by
    rw [f6]; simp [Output_passinit, OUTBUFFERSIZE]
  have hh : (Output_start_segment A 0 (Output_passinit s)).highest_written = 0 := by
    rw [f7]; simp [Output_passinit]
  obtain ⟨t, -, e, b1, -⟩ :=
    Output_bytes_armed bs (Output_start_segment A 0 (Output_passinit s)) f4
      (by omega) (by omega)
  obtain ⟨t2, e2, l2, g2, -⟩ :=
    Output_bytes_watermarks bs (Output_start_segment A 0 (Output_passinit s)) f4
      (by omega) (by omega)
  have ht : t2 = t := by
    rw [e] at e2
    exact (Result.ok.inj e2).symm
  subst ht
  refine ⟨t2, ?_, ?_⟩
  · rw [Output_8b_list_eq_bytes bs hb]
    exact e
  · obtain ⟨c1, -, c3, c4, -⟩ := Output_end_segment_frame t2
    have hbs : (0 : Int) < bs.length := by
      have : 0 < bs.length := List.length_pos.mpr hne
      exact_mod_cast this
    have hlow : t2.lowest_written = A := by
      rw [l2, hl, hw]
      simp only [hne, if_false, min_def]
      split_ifs <;> omega
    have hhigh : t2.highest_written = A + bs.length - 1 := by
      rw [g2, hh, hw]
      simp only [hne, if_false, max_def]
      split_ifs <;> omega
    have hnot : ¬ (A + (bs.length : Int) - 1 < A) := by omega
    have hslots : ∀ (i : Nat) (b : Int), bs[i]? = some b → t2.buffer (A + i) = b := by
      intro i b hi
      have h1 := b1 i b hi
      rw [hw] at h1
      rw [h1]
      have := hb b (List.getElem?_mem hi)
      omega
    have hamount : A + (bs.length : Int) - 1 - A + 1 = bs.length := by ring
    simp only [Output_save_file, c1, c3, c4, hlow, hhigh, hnot, if_false, hamount,
      fwrite_eq_of_slots t2.buffer A bs hslots, putc,
      shiftRight_8_of_address A hA0 hA1]
    have : A % 256 % 256 = A % 256 := by omega
    rw [this]

/-- C13 at the concrete input of the claim: `A = 0xC000` and the bytes `1, 2, 3` give
the file `00 C0 01 02 03`. -/
theorem C13_single_segment_witness :
    ∃ t, Output_8b_list [0x01, 0x02, 0x03]
          (Output_start_segment 0xC000 0 (Output_passinit example_state)) = Result.ok t
      ∧ Output_save_file out_format_t.OUTPUT_FORMAT_CBM (Output_end_segment t)
          = [0x00, 0xC0, 0x01, 0x02, 0x03] := by
  obtain ⟨t, e, h⟩ := C13_single_segment_end_to_end example_state 0xC000 [0x01, 0x02, 0x03]
    (by decide) (by decide) (by decide) (by decide) (by decide)
  exact ⟨t, e, h.trans (by decide)⟩

/-! ## Later passes -/

theorem QuietStep.refl (s : State) : QuietStep s s :=
  ⟨rfl, rfl, rfl, [], by simp, by simp⟩

theorem QuietStep.trans {s t u : State} (h1 : QuietStep s t) (h2 : QuietStep t u) :
    QuietStep s u := by
  obtain ⟨a1, b1, c1, w1, d1, e1⟩ := h1
  obtain ⟨a2, b2, c2, w2, d2, e2⟩ := h2
  refine ⟨a2.trans a1, b2.trans b1, c2.trans c1, w1 ++ w2, ?_, ?_⟩
  · rw [d2, d1, List.append_assoc]
  · intro d hd
    rcases List.mem_append.mp hd with h | h
    · exact e1 d h
    · exact e2 d h

theorem QuietStep.andThen {s : State} {r : Result} {f : State → Result}
    (h1 : QuietStep s r.state) (h2 : ∀ t, r = Result.ok t → QuietStep t (f t).state) :
    QuietStep s (r.andThen f).state := by
  cases r with
  | ok t => exact h1.trans (h2 t rfl)
  | serious t => exact h1
  | out_of_bounds t => exact h1

theorem real_output_quiet (v : Int) (s : State) (hp : s.pass_count ≠ 0) :
    QuietStep s (real_output v s).state := by
  unfold QuietStep
  by_cases h1 : s.write_idx > s.segment_max <;>
    by_cases h2 : to_int s.write_idx ≥ OUTBUFFERSIZE <;>
    by_cases hb : 0 ≤ s.write_idx ∧ s.write_idx < OUTBUFFERSIZE <;>
    simp [real_output, border_crossed, store, Result.andThen, Result.state, h1, h2, hb, hp,
      Throw_serious_error]

theorem Output_byte_quiet (v : Int) (s : State) (hp : s.pass_count ≠ 0) :
    QuietStep s (Output_byte v s).state := by
  cases hptr : s.Output_byte_ptr with
  | real_output =>
    simp only [Output_byte, hptr]
    exact real_output_quiet v s hp
  | no_output =>
    simp only [Output_byte, hptr, no_output]
    refine QuietStep.trans ?_ (real_output_quiet v _ hp)
    exact ⟨rfl, rfl, rfl, [Diag.exception_pc_undefined], rfl, by simp⟩

theorem Output_fake_advance_quiet (n : Int) (s : State) (hp : s.pass_count ≠ 0) :
    QuietStep s (Output_fake_advance n s).state := by
  unfold QuietStep
  by_cases h1 : s.write_idx + n - 1 > s.segment_max <;>
    by_cases h2 : to_int (s.write_idx + n - 1) ≥ OUTBUFFERSIZE <;>
    simp [Output_fake_advance, border_crossed, Result.andThen, Result.state, h1, h2, hp,
      Throw_serious_error]

theorem Output_fake_quiet (n : Int) (s : State) (hp : s.pass_count ≠ 0) :
    QuietStep s (Output_fake n s).state := by
  unfold Output_fake
  split_ifs with h1 h2
  · exact QuietStep.refl s
  · refine QuietStep.andThen (Output_byte_quiet 0 s hp) ?_
    intro t ht
    have hq := Output_byte_quiet 0 s hp
    rw [ht] at hq
    have hpt : t.pass_count = s.pass_count := hq.2.2.1
    exact Output_fake_advance_quiet (n - 1) t (by rw [hpt]; exact hp)
  · exact Output_fake_advance_quiet n s hp

theorem Output_end_segment_later_pass (s : State) (hp : s.pass_count ≠ 0) :
    Output_end_segment s = s := by
  simp [Output_end_segment, hp]

theorem Op_run_quiet (op : Op) (s : State) (hp : s.pass_count ≠ 0) :
    QuietStep s (op.run s).state := by
  cases op with
  | start_segment d f =>
    simp only [Op.run, Result.state, Output_start_segment,
      Output_end_segment_later_pass s hp, Output_start_segment_assign, hp, if_false]
    exact ⟨rfl, rfl, rfl, [], by simp, by simp⟩
  | end_segment =>
    simp only [Op.run, Result.state, Output_end_segment_later_pass s hp]
    exact QuietStep.refl s
  | byte v => exact Output_byte_quiet v s hp
  | fake n => exact Output_fake_quiet n s hp

theorem andThen_eq_ok {r : Result} {f : State → Result} {t : State}
    (h : r.andThen f = Result.ok t) : ∃ u, r = Result.ok u ∧ f u = Result.ok t := by
  cases r with
  | ok u => exact ⟨u, rfl, h⟩
  | serious u => simp [Result.andThen] at h
  | out_of_bounds u => simp [Result.andThen] at h

theorem run_ops_quiet (ops : List Op) :
    ∀ s t : State, s.pass_count ≠ 0 → run_ops ops s = Result.ok t → QuietStep s t := by
  induction ops with
  | nil =>
    intro s t _ h
    simp only [run_ops, Result.ok.injEq] at h
    subst h
    exact QuietStep.refl s
  | cons op rest ih =>
    intro s t hp h
    obtain ⟨u, hu, hrest⟩ := andThen_eq_ok h
    have hq := Op_run_quiet op s hp
    rw [hu] at hq
    have hpu : u.pass_count = s.pass_count := hq.2.2.1
    exact QuietStep.trans hq (ih u t (by rw [hpu]; exact hp) hrest)

/-- C14: in every pass with an index other than 0, in every state `s` reached from
`Output_passinit` by operations that returned, `segment.max` is 65535 and the ring is
the one the pass began with; and whichever of `Output_start_segment`,
`Output_end_segment`, a single-byte write or `Output_fake` is run in `s`, however it
ends, it leaves the ring and `segment.max = 65535` as they are and adds no
diagnostic that is the warning "Segment reached another one" or the warning
"Segment starts inside another one". -/
theorem C14_first_pass_diagnostics_never_refire (s0 s : State) (ops : List Op) (op : Op)
    (hp : s0.pass_count ≠ 0) (hr : run_ops ops (Output_passinit s0) = Result.ok s) :
    s.segment_max = 65535 ∧ s.ring = s0.ring
    ∧ (op.run s).state.ring = s.ring
    ∧ (op.run s).state.segment_max = 65535
    ∧ ∃ ws, (op.run s).state.diagnostics = s.diagnostics ++ ws
        ∧ Diag.segment_reached_another_one ∉ ws
        ∧ Diag.segment_starts_inside_another_one ∉ ws := by
  have h1 := run_ops_quiet ops (Output_passinit s0) s hp hr
  have hps : s.pass_count ≠ 0 := by rw [h1.2.2.1]; exact hp
  have hm : s.segment_max = 65535 := by
    rw [h1.2.1]; simp [Output_passinit, OUTBUFFERSIZE]
  obtain ⟨a, b, -, ws, d, e⟩ := Op_run_quiet op s hps
  refine ⟨hm, h1.1, a, b.trans hm, ws, d, ?_, ?_⟩
  · intro h
    rcases e _ h with h | h <;> exact absurd h (by decide)
  · intro h
    rcases e _ h with h | h <;> exact absurd h (by decide)

/-- C14 at the concrete input of the claim: with `(0x1000, 0x10)` in the ring, a new
segment without flags at `0x1005` in the second pass adds no diagnostic. -/
theorem C14_second_pass_witness :
    (Output_start_segment 0x1005 0 (Output_passinit example_second_pass)).diagnostics = []
    ∧ (Output_passinit example_second_pass).segment_max = 65535
    ∧ (Output_start_segment 0x1005 0 (Output_passinit example_second_pass)).ring
        = [{ start := 0x1000, length := 0x10 }]
    ∧ ∃ ws, (Output_start_segment 0x1005 0 (Output_passinit example_second_pass)).diagnostics
          = (Output_passinit example_second_pass).diagnostics ++ ws
        ∧ Diag.segment_reached_another_one ∉ ws
        ∧ Diag.segment_starts_inside_another_one ∉ ws :=
  have h := C14_first_pass_diagnostics_never_refire example_second_pass
    (Output_passinit example_second_pass) [] (Op.start_segment 0x1005 0) (by decide) rfl
  ⟨by decide, h.1, h.2.2.1, h.2.2.2.2⟩

/-! ## Crossing a segment limit -/

/-- C15 is broken by the code when a committed segment starts right after the
crossing point.  The state `example_at_limit` is reached in the first pass (a segment
started at `0x1FFF`, one byte written); its ring `(0x2000, 1)`, `(0x2001, 0x10)` is
ordered, `Output_byte` points to `real_output`, and its cursor `p = 0x2000` is above
`segment.max = 0x1FFF`.  The smallest committed start above `p` is `0x2001`, so after
the write `segment.max` has to be `0x2000`.  The code reports the one warning and
stores the byte, but `border_crossed` searches from `p + 1 = 0x2001`, finds no start
above it and sets `segment.max` to 65535; the next byte, written at `0x2001` into the
committed segment `(0x2001, 0x10)`, adds no diagnostic.  `Output_start_segment` at the
same cursor `0x2000` does set `segment.max` to `0x2000`. -/
theorem C15_crossing_skips_segment_at_next_position :
    Output_byte 0x11
        (Output_start_segment 0x1FFF 0 (Output_passinit example_adjacent_segments))
      = Result.ok example_at_limit
    ∧ example_at_limit.pass_count = 0
    ∧ Ordered example_at_limit.ring
    ∧ example_at_limit.Output_byte_ptr = OutputByteFn.real_output
    ∧ example_at_limit.segment_max < example_at_limit.write_idx
    ∧ example_at_limit.write_idx = 0x2000
    ∧ (∃ g ∈ example_at_limit.ring, g.start = 0x2001
        ∧ example_at_limit.write_idx < g.start
        ∧ ∀ x ∈ example_at_limit.ring, example_at_limit.write_idx < x.start
            → g.start ≤ x.start)
    ∧ (∃ t, Output_byte 0x22 example_at_limit = Result.ok t
        ∧ t.diagnostics = [Diag.segment_reached_another_one]
        ∧ t.buffer 0x2000 = 0x22
        ∧ t.write_idx = 0x2001
        ∧ t.segment_max = 65535 ∧ t.segment_max ≠ 0x2001 - 1
        ∧ ∃ u, Output_byte 0x33 t = Result.ok u
            ∧ u.buffer 0x2001 = 0x33
            ∧ u.diagnostics = t.diagnostics)
    ∧ (Output_start_segment 0 0 example_at_limit).write_idx = 0x2000
    ∧ (Output_start_segment 0 0 example_at_limit).segment_max = 0x2001 - 1 := by
  refine ⟨rfl, rfl, ?_, rfl, by decide, rfl, ?_, ?_, by decide, by decide⟩
  · simp [Ordered, segment_le, example_at_limit, example_adjacent_segments]
  · refine ⟨{ start := 0x2001, length := 0x10 }, by decide, rfl, by decide, ?_⟩
    decide
  · refine ⟨_, rfl, by decide, by decide, by decide, by decide, by decide,
      _, rfl, by decide, by decide⟩

/-! ## Fake emission -/

/-- The part of `Output_fake` after the check of the function pointer, when the last
position is inside the buffer or below it by no more than an `int` can hold. -/
theorem Output_fake_advance_spec (n : Int) (s : State) (h : s.write_idx + n - 1 < 65536)
    (hl : -2147483648 ≤ s.write_idx + n - 1) :
    ∃ t, Output_fake_advance n s = Result.ok t
      ∧ t.write_idx = s.write_idx + n
      ∧ t.add_to_pc = s.add_to_pc + n
      ∧ t.lowest_written = (if s.write_idx < s.lowest_written then s.write_idx
          else s.lowest_written)
      ∧ t.highest_written = (if s.write_idx + n - 1 > s.highest_written
          then s.write_idx + n - 1 else s.highest_written)
      ∧ t.Output_byte_ptr = s.Output_byte_ptr
      ∧ t.buffer = s.buffer
      ∧ t.ring = s.ring
      ∧ t.pass_count = s.pass_count
      ∧ t.segment_start = s.segment_start
      ∧ t.segment_flags = s.segment_flags
      ∧ t.diagnostics = s.diagnostics ++
          (if s.write_idx + n - 1 > s.segment_max ∧ s.pass_count = 0
            then [Diag.segment_reached_another_one] else [])
      ∧ t.segment_max =
          (if s.write_idx + n - 1 > s.segment_max ∧ s.pass_count = 0
            then (find_segment_max (s.write_idx + n - 1 + 1) s).segment_max
            else s.segment_max) := by
  have ht : to_int (s.write_idx + n - 1) = s.write_idx + n - 1 :=
    to_int_of_int_range _ hl (by omega)
  have hn : ¬ (s.write_idx + n - 1 ≥ OUTBUFFERSIZE) := by simp [OUTBUFFERSIZE]; omega
  by_cases hc : s.write_idx + n - 1 > s.segment_max <;> by_cases hp : s.pass_count = 0 <;>
    simp [Output_fake_advance, border_crossed, Result.andThen, hc, hp, hn, ht,
      Throw_warning, find_segment_max]

/-- C16: for every size `n ≥ 1` and every state whose cursor `c` is an address
(`0 ≤ c`) with `c + n ≤ 65536`, `Output_fake(n)` returns with the cursor at `c + n`,
`add_to_pc` raised by `n`, `lowest_written = min(old lowest_written, c)`,
`highest_written = max(old highest_written, c + n - 1)` and `Output_byte` pointing to
`real_output`: when it pointed to `real_output` before, no slot of the buffer
changes; when it pointed to `no_output`, exactly one pc-undefined error is added and
only slot `c` changes, to the dummy byte 0.  For `n < 1` the call returns the state
it was called in, whatever the cursor. -/
theorem C16_fake_emission_advances_without_writing (s : State) (n : Int) :
    (1 ≤ n → s.write_idx + n ≤ 65536 → s.Output_byte_ptr = OutputByteFn.real_output →
        0 ≤ s.write_idx →
      ∃ t, Output_fake n s = Result.ok t
        ∧ t.write_idx = s.write_idx + n
        ∧ t.add_to_pc = s.add_to_pc + n
        ∧ t.lowest_written = min s.lowest_written s.write_idx
        ∧ t.highest_written = max s.highest_written (s.write_idx + n - 1)
        ∧ t.Output_byte_ptr = OutputByteFn.real_output
        ∧ t.buffer = s.buffer)
    ∧ (1 ≤ n → s.write_idx + n ≤ 65536 → s.Output_byte_ptr = OutputByteFn.no_output →
        0 ≤ s.write_idx →
      ∃ t ws, Output_fake n s = Result.ok t
        ∧ t.write_idx = s.write_idx + n
        ∧ t.add_to_pc = s.add_to_pc + n
        ∧ t.lowest_written = min s.lowest_written s.write_idx
        ∧ t.highest_written = max s.highest_written (s.write_idx + n - 1)
        ∧ t.Output_byte_ptr = OutputByteFn.real_output
        ∧ t.buffer = (fun i => if i = s.write_idx then 0 else s.buffer i)
        ∧ t.diagnostics = s.diagnostics ++ Diag.exception_pc_undefined :: ws
        ∧ (∀ d ∈ ws, d = Diag.segment_reached_another_one))
    ∧ (n < 1 → Output_fake n s = Result.ok s) := by
  refine ⟨?_, ?_, ?_⟩
  · intro hn hc hA h0
    have hn1 : ¬ n < 1 := by omega
    obtain ⟨t, e, i, p, l, g, a, b, -⟩ :=
      Output_fake_advance_spec n s (by omega) (by omega)
    refine ⟨t, ?_, i, p, ?_, ?_, a.trans hA, b⟩
    · simp [Output_fake, hn1, hA, e]
    · rw [l]; simp only [min_def]; split_ifs <;> omega
    · rw [g]; simp only [max_def]; split_ifs <;> omega
  · intro hn hc hD h0
    have hn1 : ¬ n < 1 := by omega
    obtain ⟨t1, e1, b1, i1, p1, a1, -, -, d1, -, l1, g1, -⟩ :=
      real_output_spec 0
        { Throw_error Diag.exception_pc_undefined s with
          Output_byte_ptr := OutputByteFn.real_output } h0
        (show s.write_idx < 65536 by omega)
    have e0 : Output_byte 0 s = Result.ok t1 := by
      rw [← e1]
      simp [Output_byte, hD, no_output]
    have hi1 : t1.write_idx = s.write_idx + 1 := i1
    have hp1 : t1.add_to_pc = s.add_to_pc + 1 := p1
    have hl1 : t1.lowest_written = (if s.write_idx < s.lowest_written then s.write_idx
        else s.lowest_written) := l1
    have hg1 : t1.highest_written = (if s.write_idx > s.highest_written then s.write_idx
        else s.highest_written) := g1
    obtain ⟨t, e, i, p, l, g, a, b, -, -, -, -, d, -⟩ :=
      Output_fake_advance_spec (n - 1) t1 (by omega) (by omega)
    refine ⟨t, (if s.write_idx > s.segment_max ∧ s.pass_count = 0
        then [Diag.segment_reached_another_one] else [])
        ++ (if t1.write_idx + (n - 1) - 1 > t1.segment_max ∧ t1.pass_count = 0
          then [Diag.segment_reached_another_one] else []),
      ?_, ?_, ?_, ?_, ?_, a.trans a1, ?_, ?_, ?_⟩
    · simp [Output_fake, hn1, hD, e0, Result.andThen, e]
    · rw [i, hi1]; ring
    · rw [p, hp1]; ring
    · rw [l, hl1, hi1]; simp only [min_def]; split_ifs <;> omega
    · rw [g, hg1, hi1]; simp only [max_def]; split_ifs <;> omega
    · rw [b]; simpa using b1
    · rw [d, d1]
      simp [Throw_error]
    · intro x hx
      rcases List.mem_append.mp hx with h | h <;> split_ifs at h <;> simp_all
  · intro hn
    simp [Output_fake, hn]

/-- C16 at a concrete input: `Output_fake(3)` right after `Output_passinit`, where
`Output_byte` points to `no_output`. -/
theorem C16_fake_emission_witness :
    ∃ t ws, Output_fake 3 (Output_passinit example_state) = Result.ok t
      ∧ t.write_idx = (Output_passinit example_state).write_idx + 3
      ∧ t.add_to_pc = (Output_passinit example_state).add_to_pc + 3
      ∧ t.lowest_written = min (Output_passinit example_state).lowest_written
          (Output_passinit example_state).write_idx
      ∧ t.highest_written = max (Output_passinit example_state).highest_written
          ((Output_passinit example_state).write_idx + 3 - 1)
      ∧ t.Output_byte_ptr = OutputByteFn.real_output
      ∧ t.buffer = (fun i => if i = (Output_passinit example_state).write_idx then 0
          else (Output_passinit example_state).buffer i)
      ∧ t.diagnostics = (Output_passinit example_state).diagnostics
          ++ Diag.exception_pc_undefined :: ws
      ∧ (∀ d ∈ ws, d = Diag.segment_reached_another_one) :=
  (C16_fake_emission_advances_without_writing (Output_passinit example_state) 3).2.1
    (by decide) (by decide) rfl (by decide)

/-! ## Memory initialisation -/

/-- C17: in pass 0, from a state where the fill value has not been set, for every
`v1` in `-0x80..0xff` and every `v2`, `PO_initmem` with `v1` reports nothing, and
`PO_initmem` with `v2` right after it returns the state the first call left with
exactly one diagnostic added, the warning "Memory already initialised.": every one of
the 65536 slots of the buffer holds `v1 mod 256`, and the diagnostics of the two
calls together are that one warning.  In a pass with an index other than 0 the call
returns the state it was called in. -/
theorem C17_memory_init_once_only (s : State) (v1 v2 : Int) :
    (s.pass_count = 0 → s.initvalue_set = false → -0x80 ≤ v1 → v1 ≤ 0xff →
      (∀ i : Int, 0 ≤ i → i ≤ 65535 →
          (PO_initmem v2 (PO_initmem v1 s).2).2.buffer i = v1 % 256)
      ∧ (PO_initmem v1 s).2.diagnostics = s.diagnostics
      ∧ (PO_initmem v1 s).2.initvalue_set = true
      ∧ (PO_initmem v2 (PO_initmem v1 s).2).2
          = { (PO_initmem v1 s).2 with
              diagnostics := (PO_initmem v1 s).2.diagnostics
                ++ [Diag.memory_already_initialised] }
      ∧ (PO_initmem v2 (PO_initmem v1 s).2).2.diagnostics
          = s.diagnostics ++ [Diag.memory_already_initialised])
    ∧ (s.pass_count ≠ 0 → PO_initmem v1 s = (eos_t.SKIP_REMAINDER, s)) := by
  constructor
  · intro hp hi hlo hhi
    have hr : ¬ (v1 > 0xff ∨ v1 < -0x80) := by omega
    have e1 : (PO_initmem v1 s).2
        = { fill_completely v1 { s with initvalue_set := true } with
            pass_undefined_count :=
              if s.pass_undefined_count = 0 then 1 else s.pass_undefined_count } := by
      simp [PO_initmem, hp, hi, hr]
    have e2 : (PO_initmem v2 (PO_initmem v1 s).2).2
        = { (PO_initmem v1 s).2 with
            diagnostics := (PO_initmem v1 s).2.diagnostics
              ++ [Diag.memory_already_initialised] } := by
      rw [e1]
      simp [PO_initmem, hp, fill_completely, Throw_warning]
    refine ⟨?_, ?_, ?_, e2, ?_⟩
    · intro i h0 h1
      rw [e2, e1]
      have hb : 0 ≤ i ∧ i < OUTBUFFERSIZE := ⟨h0, by simp [OUTBUFFERSIZE]; omega⟩
      simp [fill_completely, hb]
    · rw [e1]; rfl
    · rw [e1]; rfl
    · rw [e2, e1]; rfl
  · intro hp
    simp [PO_initmem, hp]

/-- C17 at a concrete input: `PO_initmem` with `0x55` and then with `0x66` in the
example state leaves `0x55` in the slots and the one warning. -/
theorem C17_memory_init_witness :
    (∀ i : Int, 0 ≤ i → i ≤ 65535 →
        (PO_initmem 0x66 (PO_initmem 0x55 example_state).2).2.buffer i = 0x55)
    ∧ (PO_initmem 0x66 (PO_initmem 0x55 example_state).2).2.diagnostics
        = [Diag.memory_already_initialised] :=
  have h := (C17_memory_init_once_only example_state 0x55 0x66).1 rfl rfl
    (by decide) (by decide)
  ⟨h.1, h.2.2.2.2⟩

/-! ## Ending a segment twice -/

/-- C18, amended: for every state `Output_end_segment` leaves the start and the flags
of the active segment, the cursor and the pass as they are, so no segment is
deactivated: when the first call linked `(segment.start, write_idx - segment.start)`
into the ring, a second call right after it links the same pair once more, and the
ring has two more elements than before; the second call returns the state unchanged
exactly when the first one did, that is when the state is not eligible. -/
theorem C18_end_segment_twice (s : State) :
    (Output_end_segment s).segment_start = s.segment_start
    ∧ (Output_end_segment s).segment_flags = s.segment_flags
    ∧ (Output_end_segment s).write_idx = s.write_idx
    ∧ (Output_end_segment s).pass_count = s.pass_count
    ∧ (Eligible s →
        Eligible (Output_end_segment s)
        ∧ (Output_end_segment (Output_end_segment s)).ring.Perm
            ({ start := s.segment_start, length := s.write_idx - s.segment_start }
              :: { start := s.segment_start, length := s.write_idx - s.segment_start }
              :: s.ring)
        ∧ (Output_end_segment (Output_end_segment s)).ring.length
            = (Output_end_segment s).ring.length + 1
        ∧ (Output_end_segment (Output_end_segment s)).ring ≠ (Output_end_segment s).ring)
    ∧ (¬ Eligible s →
        Output_end_segment s = s
        ∧ Output_end_segment (Output_end_segment s) = Output_end_segment s) := by
  obtain ⟨-, f2, -, -, -, f6, -, f8, f9, -⟩ := Output_end_segment_frame s
  refine ⟨f8, f9, f2, f6, ?_, ?_⟩
  · intro h
    have h2 : Eligible (Output_end_segment s) := by
      unfold Eligible at h ⊢
      rw [f6, f8, f9, f2]
      exact h
    have hp1 := link_segment_loop_perm
      { start := s.segment_start, length := s.write_idx - s.segment_start } s.ring
    have e1 : (Output_end_segment s).ring
        = link_segment_loop
            { start := s.segment_start, length := s.write_idx - s.segment_start } s.ring := by
      rw [Output_end_segment_eligible s h]; rfl
    have e2 : (Output_end_segment (Output_end_segment s)).ring
        = link_segment_loop
            { start := s.segment_start, length := s.write_idx - s.segment_start }
            (Output_end_segment s).ring := by
      rw [Output_end_segment_eligible _ h2, f8, f2]; rfl
    have hp2 := link_segment_loop_perm
      { start := s.segment_start, length := s.write_idx - s.segment_start }
      (Output_end_segment s).ring
    have hlen : (Output_end_segment (Output_end_segment s)).ring.length
        = (Output_end_segment s).ring.length + 1 := by
      rw [e2]; simpa using hp2.length_eq
    refine ⟨h2, ?_, hlen, ?_⟩
    · rw [e2]
      refine hp2.trans (List.Perm.cons _ ?_)
      rw [e1]; exact hp1
    · intro heq
      rw [heq] at hlen
      omega
  · intro h
    have e := Output_end_segment_not_eligible s h
    exact ⟨e, by rw [e, e]⟩

/-- C18 as stated fails: in `example_at_limit` a segment started at `0x1FFF` holds
one byte; the first `Output_end_segment` links `(0x1FFF, 1)` into the ring and leaves
the segment active, and the second call links `(0x1FFF, 1)` in once more. -/
theorem C18_end_segment_twice_counterexample :
    (Output_end_segment example_at_limit).ring
        = [{ start := 0x1FFF, length := 1 }, { start := 0x2000, length := 1 },
            { start := 0x2001, length := 0x10 }]
    ∧ (Output_end_segment example_at_limit).segment_start ≠ NO_SEGMENT_START
    ∧ (Output_end_segment (Output_end_segment example_at_limit)).ring
        = [{ start := 0x1FFF, length := 1 }, { start := 0x1FFF, length := 1 },
            { start := 0x2000, length := 1 }, { start := 0x2001, length := 0x10 }]
    ∧ (Output_end_segment (Output_end_segment example_at_limit)).ring
        ≠ (Output_end_segment example_at_limit).ring := by
  refine ⟨by decide, by decide, by decide, by decide⟩

/-! ## Watermarks -/

theorem real_output_ok_bounds (v : Int) (s t : State) (h : real_output v s = Result.ok t) :
    0 ≤ s.write_idx ∧ s.write_idx < 65536 := by
  by_contra hb
  have hb2 : ¬ (0 ≤ s.write_idx ∧ s.write_idx < OUTBUFFERSIZE) := by
    simpa [OUTBUFFERSIZE] using hb
  by_cases h1 : s.write_idx > s.segment_max <;>
    by_cases h2 : to_int s.write_idx ≥ OUTBUFFERSIZE <;>
    by_cases hp : s.pass_count = 0 <;>
    simp [real_output, border_crossed, store, Result.andThen, h1, h2, hp, hb2,
      Throw_serious_error, find_segment_max, Throw_warning] at h

theorem Output_byte_ok (v : Int) (s t : State) (h : Output_byte v s = Result.ok t) :
    0 ≤ s.write_idx ∧ s.write_idx < 65536
    ∧ t.write_idx = s.write_idx + 1
    ∧ t.lowest_written = (if s.write_idx < s.lowest_written then s.write_idx
        else s.lowest_written)
    ∧ t.highest_written = (if s.write_idx > s.highest_written then s.write_idx
        else s.highest_written)
    ∧ t.Output_byte_ptr = OutputByteFn.real_output := by
  cases hp : s.Output_byte_ptr with
  | real_output =>
    simp only [Output_byte, hp] at h
    obtain ⟨hb0, hb1⟩ := real_output_ok_bounds v s t h
    obtain ⟨u, e, -, i, -, a, -, -, -, -, l, g, -⟩ := real_output_spec v s hb0 hb1
    rw [h] at e
    obtain rfl := Result.ok.inj e
    exact ⟨hb0, hb1, i, l, g, a.trans hp⟩
  | no_output =>
    simp only [Output_byte, hp, no_output] at h
    obtain ⟨hb0, hb1⟩ := real_output_ok_bounds v _ t h
    obtain ⟨u, e, -, i, -, a, -, -, -, -, l, g, -⟩ := real_output_spec v _ hb0 hb1
    rw [h] at e
    obtain rfl := Result.ok.inj e
    exact ⟨hb0, hb1, i, l, g, a⟩

theorem Output_fake_advance_ok (n : Int) (s t : State)
    (h : Output_fake_advance n s = Result.ok t) :
    t.write_idx = s.write_idx + n
    ∧ t.lowest_written = (if s.write_idx < s.lowest_written then s.write_idx
        else s.lowest_written)
    ∧ t.highest_written = (if s.write_idx + n - 1 > s.highest_written
        then s.write_idx + n - 1 else s.highest_written) := by
  by_cases h1 : s.write_idx + n - 1 > s.segment_max <;>
    by_cases h2 : to_int (s.write_idx + n - 1) ≥ OUTBUFFERSIZE <;>
    by_cases hp : s.pass_count = 0 <;>
    simp [Output_fake_advance, border_crossed, Result.andThen, h1, h2, hp,
      Throw_serious_error, find_segment_max, Throw_warning] at h <;>
    subst h <;> simp

/-- What an operation that returned does to the cursor and the watermarks. -/
theorem Op_run_watermarks (op : Op) (s t : State) (h0 : 0 ≤ s.write_idx)
    (hr : op.run s = Result.ok t) :
    0 ≤ t.write_idx
    ∧ ((op.emitted s = [] ∧ t.lowest_written = s.lowest_written
          ∧ t.highest_written = s.highest_written
          ∧ (s.write_idx ≤ 65535 → t.write_idx ≤ 65535))
      ∨ (∃ b, op.emitted s = [(s.write_idx, b)] ∧ s.write_idx ≤ b
          ∧ t.lowest_written = min s.lowest_written s.write_idx
          ∧ t.highest_written = max s.highest_written b)) := by
  cases op with
  | start_segment d f =>
    simp only [Op.run, Result.ok.injEq] at hr
    subst hr
    obtain ⟨f1, -, -, -, -, f6, f7, -⟩ := Output_start_segment_frame d f s
    refine ⟨by rw [f1]; omega, Or.inl ⟨rfl, f6, f7, fun _ => by rw [f1]; omega⟩⟩
  | end_segment =>
    simp only [Op.run, Result.ok.injEq] at hr
    subst hr
    obtain ⟨-, f2, f3, f4, -⟩ := Output_end_segment_frame s
    exact ⟨by rw [f2]; exact h0, Or.inl ⟨rfl, f3, f4, fun h => by rw [f2]; exact h⟩⟩
  | byte v =>
    obtain ⟨-, hb1, i, l, g, -⟩ := Output_byte_ok v s t hr
    refine ⟨by omega, Or.inr ⟨s.write_idx, rfl, le_refl _, ?_, ?_⟩⟩
    · rw [l]; simp only [min_def]; split_ifs <;> omega
    · rw [g]; simp only [max_def]; split_ifs <;> omega
  | fake n =>
    simp only [Op.run, Output_fake] at hr
    by_cases hn : n < 1
    · simp only [hn, if_true, Result.ok.injEq] at hr
      subst hr
      exact ⟨h0, Or.inl ⟨by simp [Op.emitted, hn], rfl, rfl, fun h => h⟩⟩
    · simp only [hn, if_false] at hr
      have hem : (Op.fake n).emitted s = [(s.write_idx, s.write_idx + n - 1)] := by
        simp [Op.emitted, hn]
      by_cases hd : s.Output_byte_ptr = OutputByteFn.no_output
      · simp only [hd, if_true] at hr
        obtain ⟨u, hu, hadv⟩ := andThen_eq_ok hr
        obtain ⟨-, hb1, i1, l1, g1, -⟩ := Output_byte_ok 0 s u hu
        obtain ⟨i2, l2, g2⟩ := Output_fake_advance_ok (n - 1) u t hadv
        refine ⟨by omega, Or.inr ⟨s.write_idx + n - 1, hem, by omega, ?_, ?_⟩⟩
        · rw [l2, l1, i1]; simp only [min_def]; split_ifs <;> omega
        · rw [g2, g1, i1]; simp only [max_def]; split_ifs <;> omega
      · simp only [hd, if_false] at hr
        obtain ⟨i2, l2, g2⟩ := Output_fake_advance_ok n s t hr
        refine ⟨by omega, Or.inr ⟨s.write_idx + n - 1, hem, by omega, ?_, ?_⟩⟩
        · rw [l2]; simp only [min_def]; split_ifs <;> omega
        · rw [g2]; simp only [max_def]; split_ifs <;> omega

theorem WatermarkInv_step (op : Op) (s t : State) (E : List (Int × Int))
    (hI : WatermarkInv E s) (hr : op.run s = Result.ok t) :
    WatermarkInv (E ++ op.emitted s) t := by
  obtain ⟨h0, hle, hE0, hE1⟩ := hI
  obtain ⟨ht0, hcase⟩ := Op_run_watermarks op s t h0 hr
  rcases hcase with ⟨hem, hl, hg, hc⟩ | ⟨b, hem, hab, hl, hg⟩
  · rw [hem, List.append_nil]
    refine ⟨ht0, hle, ?_, ?_⟩
    · intro hE
      obtain ⟨a1, a2, a3⟩ := hE0 hE
      exact ⟨hl.trans a1, hg.trans a2, hc a3⟩
    · intro hE
      rw [hl, hg]
      exact hE1 hE
  · rw [hem]
    refine ⟨ht0, ?_, ?_, ?_⟩
    · intro p hp
      rcases List.mem_append.mp hp with h | h
      · exact hle p h
      · simp only [List.mem_singleton] at h
        subst h
        exact hab
    · intro hE
      simp at hE
    · intro _
      by_cases hE : E = []
      · obtain ⟨a1, a2, a3⟩ := hE0 hE
        subst hE
        have hl2 : t.lowest_written = s.write_idx := by
          rw [hl, a1]; simp only [min_def]; split_ifs <;> omega
        have hg2 : t.highest_written = b := by
          rw [hg, a2]; simp only [max_def]; split_ifs <;> omega
        simp only [List.nil_append, List.mem_singleton, forall_eq, exists_eq_left]
        exact ⟨⟨by omega, by omega⟩, hl2.symm, hg2.symm⟩
      · obtain ⟨b1, ⟨p1, hp1, e1⟩, ⟨p2, hp2, e2⟩⟩ := hE1 hE
        have hl3 : t.lowest_written ≤ s.lowest_written ∧ t.lowest_written ≤ s.write_idx
            ∧ (t.lowest_written = s.lowest_written ∨ t.lowest_written = s.write_idx) := by
          rw [hl]; simp only [min_def]; split_ifs <;> omega
        have hg3 : s.highest_written ≤ t.highest_written ∧ b ≤ t.highest_written
            ∧ (t.highest_written = s.highest_written ∨ t.highest_written = b) := by
          rw [hg]; simp only [max_def]; split_ifs <;> omega
        refine ⟨?_, ?_, ?_⟩
        · intro p hp
          rcases List.mem_append.mp hp with h | h
          · have := b1 p h
            exact ⟨by omega, by omega⟩
          · simp only [List.mem_singleton] at h
            subst h
            exact ⟨hl3.2.1, hg3.2.1⟩
        · rcases hl3.2.2 with h | h
          · exact ⟨p1, List.mem_append_left _ hp1, by rw [e1, h]⟩
          · exact ⟨(s.write_idx, b), List.mem_append_right _ (List.mem_singleton.mpr rfl),
              h.symm⟩
        · rcases hg3.2.2 with h | h
          · exact ⟨p2, List.mem_append_left _ hp2, by rw [e2, h]⟩
          · exact ⟨(s.write_idx, b), List.mem_append_right _ (List.mem_singleton.mpr rfl),
              h.symm⟩

theorem WatermarkInv_run (ops : List Op) :
    ∀ (s t : State) (E : List (Int × Int)), WatermarkInv E s →
      run_ops ops s = Result.ok t → WatermarkInv (E ++ emitted_by ops s) t := by
  induction ops with
  | nil =>
    intro s t E hI hr
    simp only [run_ops, Result.ok.injEq] at hr
    subst hr
    simpa [emitted_by] using hI
  | cons op rest ih =>
    intro s t E hI hr
    obtain ⟨u, hu, hrest⟩ := andThen_eq_ok hr
    have h1 := WatermarkInv_step op s u E hI hu
    have h2 := ih u t _ h1 hrest
    have he : emitted_by (op :: rest) s = op.emitted s ++ emitted_by rest u := by
      simp [emitted_by, hu]
    rw [he, ← List.append_assoc]
    exact h2

/-- C19: for every run of operations (`Output_start_segment`, `Output_end_segment`,
single-byte writes, `Output_fake`) that all returned after `Output_passinit`,
`highest_written < lowest_written` holds exactly when no position was emitted in the
run; when positions were emitted, `lowest_written` is the first position of an
emitted interval and `highest_written` the last position of one; and every emitted
interval lies between the two watermarks, so `lowest_written` is the minimum and
`highest_written` the maximum of the emitted positions, and every emitted position
is inside the saved range `[start, start + length)`. -/
theorem C19_watermarks_are_extent (s0 t : State) (ops : List Op)
    (hr : run_ops ops (Output_passinit s0) = Result.ok t) :
    (t.highest_written < t.lowest_written ↔ emitted_by ops (Output_passinit s0) = [])
    ∧ (emitted_by ops (Output_passinit s0) ≠ [] →
        (∃ p ∈ emitted_by ops (Output_passinit s0), p.1 = t.lowest_written)
        ∧ (∃ p ∈ emitted_by ops (Output_passinit s0), p.2 = t.highest_written))
    ∧ (∀ p ∈ emitted_by ops (Output_passinit s0),
        p.1 ≤ p.2 ∧ t.lowest_written ≤ p.1 ∧ p.2 ≤ t.highest_written
        ∧ ∀ a : Int, p.1 ≤ a → a ≤ p.2 →
            (emitted_range t.lowest_written t.highest_written).1 ≤ a
            ∧ a < (emitted_range t.lowest_written t.highest_written).1
                + (emitted_range t.lowest_written t.highest_written).2) := by
  have hinit : WatermarkInv [] (Output_passinit s0) := by
    refine ⟨by simp [Output_passinit], by simp, ?_, by simp⟩
    intro _
    simp [Output_passinit, OUTBUFFERSIZE]
  have hI := WatermarkInv_run ops (Output_passinit s0) t [] hinit hr
  rw [List.nil_append] at hI
  obtain ⟨-, hle, hE0, hE1⟩ := hI
  have hcover : ∀ p ∈ emitted_by ops (Output_passinit s0),
      p.1 ≤ p.2 ∧ t.lowest_written ≤ p.1 ∧ p.2 ≤ t.highest_written := by
    intro p hp
    have hne : emitted_by ops (Output_passinit s0) ≠ [] := List.ne_nil_of_mem hp
    exact ⟨hle p hp, ((hE1 hne).1 p hp).1, ((hE1 hne).1 p hp).2⟩
  refine ⟨?_, ?_, ?_⟩
  · constructor
    · intro hlt
      by_contra hne
      obtain ⟨p, hp, -⟩ := (hE1 hne).2.1
      have := hcover p hp
      omega
    · intro hE
      obtain ⟨a1, a2, -⟩ := hE0 hE
      rw [a1, a2]
      decide
  · intro hne
    exact (hE1 hne).2
  · intro p hp
    obtain ⟨c1, c2, c3⟩ := hcover p hp
    refine ⟨c1, c2, c3, ?_⟩
    intro a ha1 ha2
    have hnot : ¬ t.highest_written < t.lowest_written := by omega
    simp only [emitted_range, hnot, if_false]
    constructor <;> omega

/-- C19 at the corner cases of the claim: a single byte at address 65535 leaves both
watermarks at 65535, a single byte at address 0 leaves both at 0, and in both runs
the highest is not below the lowest. -/
theorem C19_watermarks_witness :
    (∃ t, run_ops [Op.start_segment 0xFFFF 0, Op.byte 0x11] (Output_passinit example_state)
          = Result.ok t
        ∧ t.lowest_written = 65535 ∧ t.highest_written = 65535
        ∧ (t.highest_written < t.lowest_written ↔
            emitted_by [Op.start_segment 0xFFFF 0, Op.byte 0x11]
              (Output_passinit example_state) = []))
    ∧ (∃ t, run_ops [Op.start_segment 0 0, Op.byte 0x11] (Output_passinit example_state)
          = Result.ok t
        ∧ t.lowest_written = 0 ∧ t.highest_written = 0
        ∧ (t.highest_written < t.lowest_written ↔
            emitted_by [Op.start_segment 0 0, Op.byte 0x11]
              (Output_passinit example_state) = [])) := by
  constructor
  · refine ⟨_, rfl, by decide, by decide, ?_⟩
    exact (C19_watermarks_are_extent example_state _
      [Op.start_segment 0xFFFF 0, Op.byte 0x11] rfl).1
  · refine ⟨_, rfl, by decide, by decide, ?_⟩
    exact (C19_watermarks_are_extent example_state _
      [Op.start_segment 0 0, Op.byte 0x11] rfl).1

/-! ## Reachable states -/

theorem find_segment_max_loop_gt (a : Int) (l : List segment) (g : segment)
    (h : find_segment_max_loop a l = some g) : a < g.start := by
  induction l with
  | nil => simp [find_segment_max_loop] at h
  | cons t rest ih =>
    by_cases ht : t.start ≤ a
    · simp only [find_segment_max_loop, ht, if_true] at h
      exact ih h
    · simp only [find_segment_max_loop, ht, if_false, Option.some.injEq] at h
      subst h
      omega

theorem find_segment_max_bounds (a : Int) (s : State) (ha : 0 ≤ a)
    (hr : ∀ g ∈ s.ring, SegmentInBuffer g) :
    0 ≤ (find_segment_max a s).segment_max ∧ (find_segment_max a s).segment_max ≤ 65535 := by
  cases h : find_segment_max_loop a s.ring with
  | none => simp [find_segment_max, h, OUTBUFFERSIZE]
  | some g =>
    have h1 := (hr g (find_segment_max_loop_mem a s.ring g h)).2.1
    have h2 := find_segment_max_loop_gt a s.ring g h
    simp only [find_segment_max, h]
    omega

theorem ReachInv_passinit (s : State) (k : Int) (ho : Ordered s.ring)
    (hr : ∀ g ∈ s.ring, SegmentInBuffer g) :
    ReachInv (Output_passinit { s with pass_count := k }) := by
  refine ⟨by simp [Output_passinit], by simp [Output_passinit],
    by simp [Output_passinit, OUTBUFFERSIZE], by simp [Output_passinit, OUTBUFFERSIZE],
    ho, hr, Or.inl rfl⟩

theorem ReachInv_end_segment (s : State) (hI : ReachInv s) :
    ReachInv (Output_end_segment s) := by
  obtain ⟨h1, h2, h3, h4, h5, h6, h7⟩ := hI
  by_cases he : Eligible s
  · obtain ⟨-, f2, -, -, -, -, -, f8, -, f10, -⟩ := Output_end_segment_frame s
    have hring : (Output_end_segment s).ring
        = link_segment_loop
            { start := s.segment_start, length := s.write_idx - s.segment_start } s.ring := by
      rw [Output_end_segment_eligible s he]; rfl
    refine ⟨by rw [f2]; exact h1, by rw [f2]; exact h2, by rw [f10]; exact h3,
      by rw [f10]; exact h4, Output_end_segment_ordered s h5, ?_, by rw [f8, f2]; exact h7⟩
    intro g hg
    rw [hring] at hg
    rcases List.mem_cons.mp ((link_segment_loop_perm _ _).mem_iff.mp hg) with rfl | hg
    · obtain ⟨-, e2, -, e4⟩ := he
      rcases h7 with h | ⟨a, b, c⟩
      · exact absurd h e2
      · unfold SegmentInBuffer
        simp only
        omega
    · exact h6 g hg
  · rw [Output_end_segment_not_eligible s he]
    exact ⟨h1, h2, h3, h4, h5, h6, h7⟩

theorem Output_start_segment_max (d : Int) (f : Nat) (s : State) :
    (Output_start_segment d f s).segment_max
      = (if s.pass_count = 0 then
          (find_segment_max ((s.write_idx + d) % 65536) (Output_end_segment s)).segment_max
        else s.segment_max) := by
  obtain ⟨-, f2, -, -, -, f6, -, -, -, f10, -⟩ := Output_end_segment_frame s
  unfold Output_start_segment
  by_cases hp : s.pass_count = 0 <;> by_cases ho : f &&& SEGMENT_FLAG_OVERLAY = 0 <;>
    simp [Output_start_segment_assign, hp, ho, f2, f6, f10, find_segment_max,
      check_segment_frame]

theorem ReachInv_start_segment (d : Int) (f : Nat) (s : State) (hI : ReachInv s) :
    ReachInv (Output_start_segment d f s) := by
  obtain ⟨-, -, h3, h4, h5, h6, -⟩ := ReachInv_end_segment s hI
  obtain ⟨-, -, g3, g4, -⟩ := hI
  obtain ⟨f1, f2, -, -, -, -, -, -, -, -, f11⟩ := Output_start_segment_frame d f s
  have hm := Output_start_segment_max d f s
  have hb := find_segment_max_bounds ((s.write_idx + d) % 65536) (Output_end_segment s)
    (by omega) h6
  refine ⟨by rw [f1]; omega, by rw [f1]; omega, ?_, ?_, by rw [f11]; exact h5,
    by rw [f11]; exact h6, Or.inr ⟨by rw [f2]; omega, by rw [f2]; omega, by rw [f1, f2]⟩⟩
  · rw [hm]; split_ifs
    · exact hb.1
    · exact g3
  · rw [hm]; split_ifs
    · exact hb.2
    · exact g4

theorem ReachInv_real_output (v : Int) (s t : State) (hI : ReachInv s)
    (h : real_output v s = Result.ok t) : ReachInv t := by
  obtain ⟨h1, h2, h3, h4, h5, h6, h7⟩ := hI
  obtain ⟨hb0, hb1⟩ := real_output_ok_bounds v s t h
  obtain ⟨u, e, -, i, -, -, -, r, -, m, -, -, st, -⟩ := real_output_spec v s hb0 hb1
  rw [h] at e
  obtain rfl := Result.ok.inj e
  have hb := find_segment_max_bounds (s.write_idx + 1) s (by omega) h6
  refine ⟨by omega, by omega, ?_, ?_, by rw [r]; exact h5, by rw [r]; exact h6, ?_⟩
  · rw [m]; split_ifs
    · exact hb.1
    · exact h3
  · rw [m]; split_ifs
    · exact hb.2
    · exact h4
  · rw [st, i]
    rcases h7 with h | ⟨a, b, c⟩
    · exact Or.inl h
    · exact Or.inr ⟨a, b, by omega⟩

theorem ReachInv_Output_byte (v : Int) (s t : State) (hI : ReachInv s)
    (h : Output_byte v s = Result.ok t) : ReachInv t := by
  cases hp : s.Output_byte_ptr with
  | real_output =>
    simp only [Output_byte, hp] at h
    exact ReachInv_real_output v s t hI h
  | no_output =>
    simp only [Output_byte, hp, no_output] at h
    have hI2 : ReachInv
        { Throw_error Diag.exception_pc_undefined s with
          Output_byte_ptr := OutputByteFn.real_output } := hI
    exact ReachInv_real_output v _ t hI2 h

theorem ReachInv_fake_advance (n : Int) (s t : State) (hI : ReachInv s) (hn : 0 ≤ n)
    (hi : s.write_idx + n - 1 ≤ 2147483647)
    (h : Output_fake_advance n s = Result.ok t) : ReachInv t := by
  obtain ⟨h1, h2, h3, h4, h5, h6, h7⟩ := hI
  have hlt : s.write_idx + n - 1 < 65536 := by
    by_contra hc
    rw [Output_fake_advance_serious n s h4 (by omega) hi] at h
    exact absurd h (by simp)
  obtain ⟨u, e, i, -, -, -, -, -, r, -, st, -, -, m⟩ :=
    Output_fake_advance_spec n s hlt (by omega)
  rw [h] at e
  obtain rfl := Result.ok.inj e
  have hb := find_segment_max_bounds (s.write_idx + n - 1 + 1) s (by omega) h6
  refine ⟨by omega, by omega, ?_, ?_, by rw [r]; exact h5, by rw [r]; exact h6, ?_⟩
  · rw [m]; split_ifs
    · exact hb.1
    · exact h3
  · rw [m]; split_ifs
    · exact hb.2
    · exact h4
  · rw [st, i]
    rcases h7 with h | ⟨a, b, c⟩
    · exact Or.inl h
    · exact Or.inr ⟨a, b, by omega⟩

theorem ReachInv_Output_fake (n : Int) (s t : State) (hI : ReachInv s)
    (hb : n ≤ 2147418112) (h : Output_fake n s = Result.ok t) : ReachInv t := by
  unfold Output_fake at h
  by_cases hn : n < 1
  · simp only [hn, if_true, Result.ok.injEq] at h
    subst h
    exact hI
  · simp only [hn, if_false] at h
    by_cases hd : s.Output_byte_ptr = OutputByteFn.no_output
    · simp only [hd, if_true] at h
      obtain ⟨u, hu, hadv⟩ := andThen_eq_ok h
      have hIu := ReachInv_Output_byte 0 s u hI hu
      exact ReachInv_fake_advance (n - 1) u t hIu (by omega)
        (by have := hIu.2.1; omega) hadv
    · simp only [hd, if_false] at h
      exact ReachInv_fake_advance n s t hI (by omega) (by have := hI.2.1; omega) h

theorem ReachInv_op (o : Op) (s t : State) (hI : ReachInv s)
    (hb : ∀ n : Int, o = Op.fake n → n ≤ 2147418112)
    (h : o.run s = Result.ok t) : ReachInv t := by
  cases o with
  | start_segment d f =>
    simp only [Op.run, Result.ok.injEq] at h
    subst h
    exact ReachInv_start_segment d f s hI
  | end_segment =>
    simp only [Op.run, Result.ok.injEq] at h
    subst h
    exact ReachInv_end_segment s hI
  | byte v => exact ReachInv_Output_byte v s t hI h
  | fake n => exact ReachInv_Output_fake n s t hI (hb n rfl) h

theorem ReachInv_step (step : Step) (s t : State) (hI : ReachInv s)
    (hb : ∀ n : Int, step = Step.op (Op.fake n) → n ≤ 2147418112)
    (h : step.run s = Result.ok t) : ReachInv t := by
  cases step with
  | op o =>
    refine ReachInv_op o s t hI ?_ h
    intro n hn
    exact hb n (by rw [hn])
  | next_pass k =>
    simp only [Step.run, Result.ok.injEq] at h
    subst h
    exact ReachInv_passinit s k hI.2.2.2.2.1 hI.2.2.2.2.2.1

theorem ReachInv_run (steps : List Step) :
    ∀ s t : State, ReachInv s →
      (∀ n : Int, Step.op (Op.fake n) ∈ steps → n ≤ 2147418112) →
      run_steps steps s = Result.ok t → ReachInv t := by
  induction steps with
  | nil =>
    intro s t hI _ h
    simp only [run_steps, Result.ok.injEq] at h
    subst h
    exact hI
  | cons step rest ih =>
    intro s t hI hb h
    obtain ⟨u, hu, hrest⟩ := andThen_eq_ok h
    have hIu := ReachInv_step step s u hI
      (fun n hn => hb n (by rw [hn]; exact List.mem_cons_self _ _)) hu
    exact ih u t hIu (fun n hn => hb n (List.mem_cons_of_mem _ hn)) hrest

theorem real_output_in_bounds (v : Int) (s u : State) (hI : ReachInv s) :
    real_output v s ≠ Result.out_of_bounds u := by
  obtain ⟨h1, h2, -, h4, -⟩ := hI
  by_cases hc : s.write_idx < 65536
  · obtain ⟨t, e, -⟩ := real_output_spec v s h1 hc
    rw [e]
    simp
  · rw [real_output_serious v s h4 (by omega) (by omega)]
    simp

theorem Output_byte_in_bounds (v : Int) (s u : State) (hI : ReachInv s) :
    Output_byte v s ≠ Result.out_of_bounds u := by
  cases hp : s.Output_byte_ptr with
  | real_output =>
    simp only [Output_byte, hp]
    exact real_output_in_bounds v s u hI
  | no_output =>
    simp only [Output_byte, hp, no_output]
    have hI2 : ReachInv
        { Throw_error Diag.exception_pc_undefined s with
          Output_byte_ptr := OutputByteFn.real_output } := hI
    exact real_output_in_bounds v _ u hI2

theorem Output_fake_advance_in_bounds (n : Int) (s u : State) :
    Output_fake_advance n s ≠ Result.out_of_bounds u := by
  by_cases h1 : s.write_idx + n - 1 > s.segment_max <;>
    by_cases h2 : to_int (s.write_idx + n - 1) ≥ OUTBUFFERSIZE <;>
    by_cases hp : s.pass_count = 0 <;>
    simp [Output_fake_advance, border_crossed, Result.andThen, h1, h2, hp,
      Throw_serious_error]

theorem Output_fake_in_bounds (n : Int) (s u : State) (hI : ReachInv s) :
    Output_fake n s ≠ Result.out_of_bounds u := by
  unfold Output_fake
  split_ifs with hn hd
  · simp
  · cases hr : Output_byte 0 s with
    | ok t =>
      simp only [Result.andThen]
      exact Output_fake_advance_in_bounds (n - 1) t u
    | serious t => simp [Result.andThen]
    | out_of_bounds t => exact absurd hr (Output_byte_in_bounds 0 s t hI)
  · exact Output_fake_advance_in_bounds n s u

/-- As long as every size passed to `Output_fake` leaves the last position inside the
range of `int` (`n ≤ 2147418112`), every state reached from `Output_passinit` with an
empty ring by steps that all returned has its cursor in `0..65536` and `segment.max`
in `0..65535`, an ordered ring whose elements lie inside the buffer, and no operation
run in it stores outside the slots `0..65535`. -/
theorem reachable_states_invariant_of_bounded_sizes (s0 t : State) (steps : List Step)
    (hring : s0.ring = [])
    (hb : ∀ n : Int, Step.op (Op.fake n) ∈ steps → n ≤ 2147418112)
    (hr : run_steps steps (Output_passinit s0) = Result.ok t) :
    (0 ≤ t.write_idx ∧ t.write_idx ≤ 65536)
    ∧ (0 ≤ t.segment_max ∧ t.segment_max ≤ 65535)
    ∧ Ordered t.ring
    ∧ (∀ g ∈ t.ring, 0 ≤ g.start ∧ g.start ≤ 65535 ∧ 1 ≤ g.length
        ∧ g.start + g.length ≤ 65536)
    ∧ (∀ (o : Op) (u : State), o.run t ≠ Result.out_of_bounds u) := by
  have h0 : ReachInv (Output_passinit s0) :=
    ReachInv_passinit s0 s0.pass_count (by rw [hring]; exact List.Pairwise.nil)
      (by rw [hring]; simp)
  have hI := ReachInv_run steps (Output_passinit s0) t h0 hb hr
  obtain ⟨h1, h2, h3, h4, h5, h6, -⟩ := hI
  refine ⟨⟨h1, h2⟩, ⟨h3, h4⟩, h5, h6, ?_⟩
  intro o u
  cases o with
  | start_segment d f => simp [Op.run]
  | end_segment => simp [Op.run]
  | byte v => exact Output_byte_in_bounds v t u (ReachInv_run steps _ t h0 hb hr)
  | fake n => exact Output_fake_in_bounds n t u (ReachInv_run steps _ t h0 hb hr)

/-- C20 is broken by the code: from `Output_passinit` of a first-pass state with an
empty ring, a segment started at 0, two bytes written and `Output_fake(2147483647)`
all return.  The last position `2 + 2147483647 - 1 = 2147483648` is converted to
`int` for `border_crossed` and becomes `-2147483648`, which is below `OUTBUFFERSIZE`:
instead of the serious error there is the one warning, and the cursor ends at
2147483649, above 65536.  The next single-byte write passes the same check and
stores outside the buffer. -/
theorem C20_fake_size_escapes_fatal_check :
    example_state.ring = [] ∧ example_state.pass_count = 0
    ∧ to_int (2 + 2147483647 - 1) = -2147483648
    ∧ ∃ t, run_steps example_overflow_steps (Output_passinit example_state) = Result.ok t
        ∧ t.write_idx = 2147483649
        ∧ ¬ t.write_idx ≤ 65536
        ∧ t.diagnostics = [Diag.segment_reached_another_one]
        ∧ ∃ u, (Op.byte 0x03).run t = Result.out_of_bounds u := by
  refine ⟨rfl, rfl, by decide, _, rfl, by decide, by decide, by decide, _, rfl⟩

end Acme
